import Mathlib

/-!
Verification of the simulacra_txt fragmentation/reassembly protocol and
queue-backed message store.

The Go source is shallowly embedded: byte buffers are `List Nat` (each
element < 256 where relevant), machine integers are `Nat` with explicit
`% 2 ^ w` at the points where Go's fixed-width arithmetic wraps or casts,
strings are `List Char`, Go maps are association lists, and fallible
functions return `Except`.  Wall-clock values (message ids derived from
`time.Now`, timestamps) are threaded as explicit arguments since they are
environment inputs of the Go code.
-/

namespace ChunkerM

/-- Protocol constants from the chunker source. -/
def MAX_DNS_STRING_SIZE : Nat := 255

def SAFE_CHUNK_SIZE : Nat := 250

def METADATA_OVERHEAD : Nat := 28

/-- `(SAFE_CHUNK_SIZE - METADATA_OVERHEAD) / 2` — integer division as in Go. -/
def PAYLOAD_PER_CHUNK_HEX : Nat := (SAFE_CHUNK_SIZE - METADATA_OVERHEAD) / 2

/-- `int(math.Floor(float64(SAFE_CHUNK_SIZE-METADATA_OVERHEAD) / 1.6))`.
The float64 quotient `222 / 1.6` lies in `[138.74…, 138.75]`, so its floor
is exactly `138`; we embed the constant value. -/
def PAYLOAD_PER_CHUNK_B32 : Nat := 138

/-- `CHUNK_MAGIC = 0x444E5343` -/
def CHUNK_MAGIC : Nat := 0x444E5343

/-- `calculateChecksum` from the chunker source: `uint32` accumulator,
`sum += uint32(b); sum = (sum << 1) | (sum >> 31)`.  Go `uint32`
arithmetic is embedded as `Nat` with `% 2 ^ 32`. -/
def calculateChecksum (data : List Nat) : Nat :=
  data.foldl (fun sum b =>
    let s := (sum + b) % 2 ^ 32
    ((s <<< 1) % 2 ^ 32) ||| (s >>> 31)) 0

/-- Reference definition following the spec's words (§4.1): start from
`sum = 0`; for each payload byte add the byte to `sum`, then rotate `sum`
left by one bit within 32 bits, all arithmetic modulo `2 ^ 32`.  A one-bit
left rotation of a 32-bit value `x` is `2 * (x % 2 ^ 31) + x / 2 ^ 31`. -/
def rotateLeft32 (x : Nat) : Nat := 2 * (x % 2 ^ 31) + x / 2 ^ 31

/-- Reference checksum from the spec's words, for comparison with
`calculateChecksum`. -/
def checksumSpec (data : List Nat) : Nat :=
  data.foldl (fun sum b => rotateLeft32 ((sum + b) % 2 ^ 32)) 0

lemma two_mul_lor_one (m : Nat) : 2 * m ||| 1 = 2 * m + 1 := by
  have h1 : (2 : Nat) * m = Nat.bit false m := by simp [Nat.bit_val]
  have h2 : (1 : Nat) = Nat.bit true 0 := by simp [Nat.bit_val]
  rw [h1, h2, Nat.lor_bit]
  simp [Nat.bit_val]

/-- Encoding-name constant `"hex"` (Go config strings are embedded as
`List Char`). -/
def strHex : List Char := ['h', 'e', 'x']

/-- Encoding-name constant `"base32"`. -/
def strBase32 : List Char := ['b', 'a', 's', 'e', '3', '2']

/-- Decimal digit character, `48 = '0'`. -/
def digitChar (n : Nat) : Char := Char.ofNat (48 + n)

/-- Decimal digits of a natural number, most significant first (fuel-driven
so that it is structurally recursive). -/
def natDigitsAux : Nat → Nat → List Char
  | 0, _ => []
  | fuel + 1, n =>
    if n < 10 then [digitChar n]
    else natDigitsAux fuel (n / 10) ++ [digitChar (n % 10)]

/-- Decimal digits of `n`, most significant first. -/
def natDigits (n : Nat) : List Char := natDigitsAux (n + 1) n

/-- Go's `fmt.Sprintf` zero padding: pad the decimal digits on the left
with `'0'` up to width `w` (more digits are kept as-is). -/
def padZero (w : Nat) (ds : List Char) : List Char :=
  List.replicate (w - ds.length) '0' ++ ds

/-- Go `%03d` formatting. -/
def fmt03d (n : Nat) : List Char := padZero 3 (natDigits n)

/-- Lowercase hex digit character. -/
def hexDigitChar (n : Nat) : Char :=
  if n < 10 then Char.ofNat (48 + n) else Char.ofNat (87 + n)

/-- `hex.EncodeToString`: two lowercase hex digits per byte. -/
def hexEncode (bs : List Nat) : List Char :=
  (bs.map (fun b => [hexDigitChar (b / 16 % 16), hexDigitChar (b % 16)])).flatten

/-- Errors of the Go text decoders (`hex.DecodeString`,
`base32 DecodeString`). -/
inductive TextDecodeError where
  | errLength
  | invalidByte (c : Char)
  | invalidB32Length
deriving DecidableEq

/-- Value of a hex digit character; `hex.DecodeString` accepts `0-9`,
`a-f` and `A-F`. -/
def hexDigitVal (c : Char) : Option Nat :=
  if 48 ≤ c.toNat ∧ c.toNat ≤ 57 then some (c.toNat - 48)
  else if 97 ≤ c.toNat ∧ c.toNat ≤ 102 then some (c.toNat - 87)
  else if 65 ≤ c.toNat ∧ c.toNat ≤ 70 then some (c.toNat - 55)
  else none

/-- `hex.DecodeString`: pairs of hex digits; an invalid character yields
`InvalidByteError`, an odd length (with valid last digit) `ErrLength`. -/
def hexDecode : List Char → Except TextDecodeError (List Nat)
  | [] => .ok []
  | [c] =>
    if (hexDigitVal c).isSome then .error .errLength else .error (.invalidByte c)
  | c1 :: c2 :: rest =>
    match hexDigitVal c1, hexDigitVal c2 with
    | some h, some l => (hexDecode rest).map (fun bs => (16 * h + l) :: bs)
    | some _, none => .error (.invalidByte c2)
    | none, _ => .error (.invalidByte c1)

/-- RFC 4648 base32 alphabet character for a 5-bit value. -/
def b32Char (n : Nat) : Char :=
  if n < 26 then Char.ofNat (65 + n) else Char.ofNat (50 + (n - 26))

/-- 5-bit value of an RFC 4648 base32 alphabet character. -/
def b32Val (c : Char) : Option Nat :=
  if 65 ≤ c.toNat ∧ c.toNat ≤ 90 then some (c.toNat - 65)
  else if 50 ≤ c.toNat ∧ c.toNat ≤ 55 then some (c.toNat - 50 + 26)
  else none

/-- Split a list into groups of five (byte quantum of base32 encoding). -/
def group5 {α : Type} : List α → List (List α)
  | [] => []
  | a :: rest => (a :: rest.take 4) :: group5 (rest.drop 4)
termination_by l => l.length
decreasing_by simp [List.length_drop]; omega

/-- Split a list into groups of eight (character quantum of base32
decoding). -/
def group8 {α : Type} : List α → List (List α)
  | [] => []
  | a :: rest => (a :: rest.take 7) :: group8 (rest.drop 7)
termination_by l => l.length
decreasing_by simp [List.length_drop]; omega

/-- Encode one group of at most five bytes as base32 characters (no
padding): `k` bytes give `ceil(8k/5)` characters. -/
def b32EncodeGroup (g : List Nat) : List Char :=
  let k := g.length
  let m := (8 * k + 4) / 5
  let v := g.foldl (fun a b => a * 256 + b % 256) 0
  let v' := v <<< (5 * m - 8 * k)
  (List.range m).map (fun i => b32Char ((v' >>> (5 * (m - 1 - i))) % 32))

/-- `base32.StdEncoding.WithPadding(NoPadding).EncodeToString`. -/
def base32Encode (bs : List Nat) : List Char :=
  ((group5 bs).map b32EncodeGroup).flatten

/-- Decode one quantum of at most eight base32 characters; quanta of
length 1, 3 or 6 are illegal, trailing bits are discarded (as in Go's
decoder, which has no strict mode for base32). -/
def b32DecodeGroup (g : List Char) : Except TextDecodeError (List Nat) :=
  let k := g.length
  if k = 1 ∨ k = 3 ∨ k = 6 then .error .invalidB32Length
  else do
    let vals ← g.mapM (fun c =>
      match b32Val c with
      | some v => Except.ok v
      | none => Except.error (TextDecodeError.invalidByte c))
    let nb := 5 * k / 8
    let v := vals.foldl (fun a d => a * 32 + d) 0
    let v' := v >>> (5 * k - 8 * nb)
    return (List.range nb).map (fun i => (v' >>> (8 * (nb - 1 - i))) % 256)

/-- `base32 DecodeString` with no padding: newlines are ignored, then the
input is decoded quantum by quantum. -/
def base32Decode (s : List Char) : Except TextDecodeError (List Nat) :=
  let s' := s.filter (fun c => c.toNat ≠ 10 ∧ c.toNat ≠ 13)
  ((group8 s').mapM b32DecodeGroup).map List.flatten

/-- `ChunkMetadata` from the chunker source.  Fixed-width Go fields are
`Nat`s kept below their bound at every write (`% 2 ^ 16` / `% 2 ^ 32`
where Go casts); `Timestamp` is an `int64` wall-clock input. -/
structure ChunkMetadata where
  magic : Nat
  messageID : List Nat
  sequence : Nat
  totalChunks : Nat
  checksum : Nat
  timestamp : Int
  payloadSize : Nat
deriving DecidableEq

/-- `Chunk` from the chunker source. -/
structure Chunk where
  metadata : ChunkMetadata
  payload : List Nat
  encoded : List Char
  recordName : List Char
deriving DecidableEq

/-- `ChunkerConfig`; `dnsNamePfx` embeds the source's DNS-name-prefix
field (identifier shortened here). -/
structure ChunkerConfig where
  encoding : List Char
  maxChunkSize : Nat
  addRedundancy : Bool
  compression : Bool
  dnsNamePfx : List Char
deriving DecidableEq

/-- `Message` from the chunker source (the unused `Metadata` string map is
created empty and never read, so it is omitted). -/
structure Message where
  id : List Nat
  data : List Nat
  chunks : List Chunk
  encoding : List Char
  createdAt : Int
deriving DecidableEq

/-- Big-endian bytes of a 16-bit value (`binary.BigEndian.PutUint16`). -/
def be16 (n : Nat) : List Nat := [n / 256 % 256, n % 256]

/-- Big-endian bytes of a 32-bit value (`binary.BigEndian.PutUint32`). -/
def be32 (n : Nat) : List Nat :=
  [n / 2 ^ 24 % 256, n / 2 ^ 16 % 256, n / 2 ^ 8 % 256, n % 256]

/-- Big-endian value of a byte list (`binary.BigEndian.Uint16/Uint32` on
the corresponding slice). -/
def beVal (bs : List Nat) : Nat := bs.foldl (fun a b => a * 256 + b) 0

/-- `encodeChunk`: header `[MAGIC|MSGID|SEQ|TOTAL|CHECKSUM]` + payload,
rendered as hex or unpadded base32 (hex for any other configured
encoding). -/
def encodeChunk (cfg : ChunkerConfig) (metadata : ChunkMetadata)
    (payload : List Nat) : List Char :=
  let metaBytes := be32 metadata.magic ++ metadata.messageID ++
    be16 metadata.sequence ++ be16 metadata.totalChunks ++ be32 metadata.checksum
  let fullChunk := metaBytes ++ payload
  if cfg.encoding = strHex then hexEncode fullChunk
  else if cfg.encoding = strBase32 then base32Encode fullChunk
  else hexEncode fullChunk

/-- `generateRecordName`: `chunk-%03d-{hex of first 4 id bytes}`, plus an
optional `.{pfx}` suffix. -/
def generateRecordName (cfg : ChunkerConfig) (metadata : ChunkMetadata) :
    List Char :=
  let msgIDShort := hexEncode (metadata.messageID.take 4)
  let name := ['c', 'h', 'u', 'n', 'k', '-'] ++ fmt03d metadata.sequence ++
    ['-'] ++ msgIDShort
  if cfg.dnsNamePfx ≠ [] then name ++ ['.'] ++ cfg.dnsNamePfx else name

/-- `calculatePayloadSize`: bytes of payload per chunk for the configured
encoding (hex for any other value). -/
def calculatePayloadSize (cfg : ChunkerConfig) : Nat :=
  if cfg.encoding = strHex then PAYLOAD_PER_CHUNK_HEX
  else if cfg.encoding = strBase32 then PAYLOAD_PER_CHUNK_B32
  else PAYLOAD_PER_CHUNK_HEX

/-- `calculateTotalChunks`: `int(math.Ceil(dataSize / payloadSize))`,
i.e. ceiling division (exact for the sizes representable here). -/
def calculateTotalChunks (dataSize payloadSize : Nat) : Nat :=
  (dataSize + payloadSize - 1) / payloadSize

/-- `createChunk`: slice `data[seq*payloadSize : min(len, (seq+1)*payloadSize)]`,
stamp metadata (the `uint16` casts of sequence and payload length are
`% 2 ^ 16`), encode, and name the record. -/
def createChunk (cfg : ChunkerConfig) (data messageID : List Nat) (ts : Int)
    (sequence total payloadSize : Nat) : Chunk :=
  let start := sequence * payloadSize
  let stop := min (start + payloadSize) data.length
  let payload := (data.drop start).take (stop - start)
  let metadata : ChunkMetadata := {
    magic := CHUNK_MAGIC
    messageID := messageID
    sequence := sequence % 2 ^ 16
    totalChunks := total
    checksum := calculateChecksum payload
    timestamp := ts
    payloadSize := payload.length % 2 ^ 16 }
  { metadata := metadata
    payload := payload
    encoded := encodeChunk cfg metadata payload
    recordName := generateRecordName cfg metadata }

/-- Failure of `ChunkMessage` (`"message too large: requires %d chunks"`). -/
inductive ChunkError where
  | messageTooLarge (requested maxChunks : Nat)
deriving DecidableEq

/-- `ChunkMessage`: fragments `data` into `ceil(len/payloadSize)` chunks.
The message id (a content+time hash in Go) and the timestamp are
wall-clock inputs passed explicitly. -/
def chunkMessage (cfg : ChunkerConfig) (messageID : List Nat) (ts : Int)
    (data : List Nat) : Except ChunkError Message :=
  let payloadSize := calculatePayloadSize cfg
  let totalChunks := calculateTotalChunks data.length payloadSize
  if totalChunks > 65535 then .error (.messageTooLarge totalChunks 65535)
  else .ok {
    id := messageID
    data := data
    chunks := (List.range totalChunks).map (fun i =>
      createChunk cfg data messageID ts i (totalChunks % 2 ^ 16) payloadSize)
    encoding := cfg.encoding
    createdAt := ts }

/-- Failures of `ReassembleMessage`, one constructor per `errors.New` /
`fmt.Errorf` site in the source.  In the spec's taxonomy (§7),
`sequenceError` and `checksumError` are `ProtocolError`s and `incomplete`
is `IncompleteMessage`. -/
inductive ReassemblyError where
  | noChunks
  | mixedMessages (a b : List Nat)
  | inconsistentTotal (a b : Nat)
  | incomplete (missing : List Nat)
  | sequenceError (pos : Nat)
  | checksumError (pos : Nat)
deriving DecidableEq

/-- First verification loop of `ReassembleMessage`: every chunk must carry
the same message id and the same total. -/
def checkSameMessage (msgID : List Nat) (total : Nat) :
    List Chunk → Except ReassemblyError Unit
  | [] => .ok ()
  | c :: rest =>
    if c.metadata.messageID ≠ msgID then
      .error (.mixedMessages msgID c.metadata.messageID)
    else if c.metadata.totalChunks ≠ total then
      .error (.inconsistentTotal total c.metadata.totalChunks)
    else checkSameMessage msgID total rest

/-- `findMissingChunks`: sequence numbers in `0..total-1` carried by no
received chunk, in increasing order. -/
def findMissingChunks (chunks : List Chunk) (total : Nat) : List Nat :=
  (List.range total).filter (fun i => ! chunks.any (fun c => c.metadata.sequence == i))

/-- Comparison used by `sort.Slice` in `ReassembleMessage` (ties between
equal sequence numbers are left unspecified by Go's unstable sort; the
model fixes the stable order, and no proved statement depends on the tie
order). -/
def seqLE (a b : Chunk) : Prop := a.metadata.sequence ≤ b.metadata.sequence

instance : DecidableRel seqLE := fun a b =>
  Nat.decLe a.metadata.sequence b.metadata.sequence

/-- Second verification loop of `ReassembleMessage` over the sorted
chunks: position `i` must hold sequence `i` with a matching checksum. -/
def verifyChunks : List Chunk → Nat → Except ReassemblyError Unit
  | [], _ => .ok ()
  | c :: rest, i =>
    if c.metadata.sequence ≠ i then .error (.sequenceError i)
    else if calculateChecksum c.payload ≠ c.metadata.checksum then
      .error (.checksumError i)
    else verifyChunks rest (i + 1)

/-- `ReassembleMessage`: consistency check, completeness check, sort by
sequence, per-position sequence/checksum verification, then payload
concatenation. -/
def reassembleMessage (chunks : List Chunk) : Except ReassemblyError (List Nat) :=
  match chunks with
  | [] => .error .noChunks
  | c0 :: _ =>
    match checkSameMessage c0.metadata.messageID c0.metadata.totalChunks chunks with
    | .error e => .error e
    | .ok _ =>
      if chunks.length ≠ c0.metadata.totalChunks then
        .error (.incomplete (findMissingChunks chunks c0.metadata.totalChunks))
      else
        let sorted := List.insertionSort seqLE chunks
        match verifyChunks sorted 0 with
        | .error e => .error e
        | .ok _ => .ok (sorted.foldl (fun acc c => acc ++ c.payload) [])

/-- Failures of `DecodeChunk`. -/
inductive DecodeChunkError where
  | decodeFailed (e : TextDecodeError)
  | tooSmall (n : Nat)
  | invalidMagic (m : Nat)
deriving DecidableEq

/-- Text-decoding dispatch of `DecodeChunk`: hex, base32, or (for any
other configured encoding) hex with a base32 fallback. -/
def textDecode (cfg : ChunkerConfig) (s : List Char) :
    Except TextDecodeError (List Nat) :=
  if cfg.encoding = strHex then hexDecode s
  else if cfg.encoding = strBase32 then base32Decode s
  else
    match hexDecode s with
    | .ok bs => .ok bs
    | .error _ => base32Decode s

/-- `DecodeChunk`: text-decode, then require at least the 28-byte header,
then require the magic constant, then split header fields and payload. -/
def decodeChunk (cfg : ChunkerConfig) (encoded : List Char) :
    Except DecodeChunkError Chunk :=
  match textDecode cfg encoded with
  | .error e => .error (.decodeFailed e)
  | .ok rawData =>
    if rawData.length < METADATA_OVERHEAD then .error (.tooSmall rawData.length)
    else
      let magic := beVal (rawData.take 4)
      if magic ≠ CHUNK_MAGIC then .error (.invalidMagic magic)
      else
        let payload := rawData.drop 28
        .ok {
          metadata := {
            magic := magic
            messageID := (rawData.drop 4).take 16
            sequence := beVal ((rawData.drop 20).take 2)
            totalChunks := beVal ((rawData.drop 22).take 2)
            checksum := beVal ((rawData.drop 24).take 4)
            timestamp := 0
            payloadSize := payload.length % 2 ^ 16 }
          payload := payload
          encoded := encoded
          recordName := [] }

lemma rotl_step_eq (s : Nat) (hs : s < 2 ^ 32) :
    ((s <<< 1) % 2 ^ 32) ||| (s >>> 31) = rotateLeft32 s := by
  rw [Nat.shiftLeft_eq, Nat.shiftRight_eq_div_pow]
  have h1 : s * 2 ^ 1 = 2 * s := by ring
  have h2 : (2 : Nat) ^ 32 = 2 * 2 ^ 31 := by norm_num
  rw [h1, h2, Nat.mul_mod_mul_left]
  have hd : s / 2 ^ 31 < 2 := by
    apply Nat.div_lt_of_lt_mul
    omega
  unfold rotateLeft32
  interval_cases h : s / 2 ^ 31
  · simp
  · rw [two_mul_lor_one]

/-- C6: for every byte sequence, the frame checksum computed by
`calculateChecksum` equals the reference definition: starting from
`sum = 0`, for each payload byte add the byte to `sum` and then rotate
`sum` left by one bit within 32 bits, all arithmetic modulo `2 ^ 32`. -/
theorem checksum_matches_reference (data : List Nat) :
    calculateChecksum data = checksumSpec data := by
  unfold calculateChecksum checksumSpec
  congr 1
  funext sum b
  exact rotl_step_eq _ (Nat.mod_lt _ (by norm_num))

lemma take_min_sub {α : Type} (l : List α) (start p : Nat) :
    (l.drop start).take (min (start + p) l.length - start) = (l.drop start).take p := by
  rcases le_or_lt (start + p) l.length with h | h
  · rw [min_eq_left h]
    congr 1
    omega
  · rw [min_eq_right (le_of_lt h)]
    have hlen : (l.drop start).length = l.length - start := List.length_drop ..
    rw [List.take_of_length_le (by omega), List.take_of_length_le (by omega)]

@[simp] lemma createChunk_messageID (cfg : ChunkerConfig) (data mid : List Nat)
    (ts : Int) (s t p : Nat) :
    (createChunk cfg data mid ts s t p).metadata.messageID = mid := rfl

@[simp] lemma createChunk_sequence (cfg : ChunkerConfig) (data mid : List Nat)
    (ts : Int) (s t p : Nat) :
    (createChunk cfg data mid ts s t p).metadata.sequence = s % 2 ^ 16 := rfl

@[simp] lemma createChunk_totalChunks (cfg : ChunkerConfig) (data mid : List Nat)
    (ts : Int) (s t p : Nat) :
    (createChunk cfg data mid ts s t p).metadata.totalChunks = t := rfl

lemma createChunk_payload_eq (cfg : ChunkerConfig) (data mid : List Nat)
    (ts : Int) (s t p : Nat) :
    (createChunk cfg data mid ts s t p).payload = (data.drop (s * p)).take p := by
  show (data.drop (s * p)).take (min (s * p + p) data.length - s * p) = _
  exact take_min_sub data (s * p) p

lemma createChunk_checksum (cfg : ChunkerConfig) (data mid : List Nat)
    (ts : Int) (s t p : Nat) :
    (createChunk cfg data mid ts s t p).metadata.checksum =
      calculateChecksum (createChunk cfg data mid ts s t p).payload := rfl

lemma checkSameMessage_ok (m : List Nat) (t : Nat) (l : List Chunk)
    (h : ∀ c ∈ l, c.metadata.messageID = m ∧ c.metadata.totalChunks = t) :
    checkSameMessage m t l = .ok () := by
  induction l with
  | nil => rfl
  | cons c rest ih =>
    obtain ⟨h1, h2⟩ := h c (by simp)
    show (if _ then _ else _) = _
    rw [if_neg (by simp [h1]), if_neg (by simp [h2])]
    exact ih (fun c hc => h c (List.mem_cons_of_mem _ hc))

lemma verifyChunks_ok_of (g : Nat → Chunk) :
    ∀ (k i : Nat), (∀ j ∈ List.range' i k, (g j).metadata.sequence = j ∧
      calculateChecksum (g j).payload = (g j).metadata.checksum) →
    verifyChunks ((List.range' i k).map g) i = .ok () := by
  intro k
  induction k with
  | zero => intro i _; rfl
  | succ n ih =>
    intro i h
    rw [List.range'_succ, List.map_cons]
    obtain ⟨h1, h2⟩ := h i (by rw [List.range'_succ]; exact List.mem_cons_self ..)
    simp only [verifyChunks, h1, h2, ne_eq, not_true_eq_false, if_false]
    exact ih (i + 1) (fun j hj => h j (by rw [List.range'_succ]; exact List.mem_cons_of_mem _ hj))

lemma foldl_append_payload (l : List Chunk) (acc : List Nat) :
    l.foldl (fun a c => a ++ c.payload) acc = acc ++ (l.map (·.payload)).flatten := by
  induction l generalizing acc with
  | nil => simp
  | cons c rest ih => simp [ih, List.append_assoc]

lemma join_chunks (p : Nat) (hp : 0 < p) :
    ∀ (n : Nat) (data : List Nat), n = (data.length + p - 1) / p →
    ((List.range n).map (fun i => (data.drop (i * p)).take p)).flatten = data := by
  intro n
  induction n with
  | zero =>
    intro data h
    have h0 : ¬ 1 ≤ (data.length + p - 1) / p := by omega
    rw [Nat.one_le_div_iff hp] at h0
    have : data.length = 0 := by omega
    simp [List.length_eq_zero.mp this]
  | succ k ih =>
    intro data h
    have h1 : (k + 1) * p ≤ data.length + p - 1 :=
      (Nat.le_div_iff_mul_le hp).mp (le_of_eq h)
    have hlt : (data.length + p - 1) / p < k + 2 := by omega
    have h2 : data.length + p - 1 < (k + 2) * p :=
      (Nat.div_lt_iff_lt_mul hp).mp hlt
    have e1 : (k + 1) * p = k * p + p := by ring
    have e2 : (k + 2) * p = k * p + 2 * p := by ring
    have hrec : k = ((data.drop p).length + p - 1) / p := by
      rw [List.length_drop]
      refine (Nat.div_eq_of_lt_le ?_ ?_).symm
      · omega
      · have e3 : Nat.succ k * p = k * p + p := Nat.succ_mul k p
        omega
    rw [List.range_succ_eq_map, List.map_cons, List.map_map, List.flatten_cons]
    have hcomp : ((List.range k).map ((fun i => (data.drop (i * p)).take p) ∘ Nat.succ)) =
        (List.range k).map (fun i => ((data.drop p).drop (i * p)).take p) := by
      apply List.map_congr_left
      intro i _
      show (data.drop (i.succ * p)).take p = _
      rw [List.drop_drop]
      congr 2
      rw [Nat.succ_mul]
      ring
    rw [hcomp, ih (data.drop p) hrec]
    simp [List.take_append_drop p data]

lemma calculatePayloadSize_pos (cfg : ChunkerConfig) :
    0 < calculatePayloadSize cfg := by
  unfold calculatePayloadSize PAYLOAD_PER_CHUNK_HEX PAYLOAD_PER_CHUNK_B32
    SAFE_CHUNK_SIZE METADATA_OVERHEAD
  split_ifs <;> norm_num

lemma chunkMessage_ok (cfg : ChunkerConfig) (mid : List Nat) (ts : Int)
    (data : List Nat) (msg : Message)
    (h : chunkMessage cfg mid ts data = .ok msg) :
    calculateTotalChunks data.length (calculatePayloadSize cfg) ≤ 65535 ∧
    msg.chunks = (List.range (calculateTotalChunks data.length (calculatePayloadSize cfg))).map
      (fun i => createChunk cfg data mid ts i
        (calculateTotalChunks data.length (calculatePayloadSize cfg) % 2 ^ 16)
        (calculatePayloadSize cfg)) ∧
    msg.data = data := by
  simp only [chunkMessage] at h
  split_ifs at h with hgt
  obtain rfl : _ = msg := Except.ok.inj h
  exact ⟨by omega, rfl, rfl⟩

/-- C1 (amended): for every nonempty byte buffer and every configuration,
if fragmentation succeeds (the buffer needs at most 65535 chunks) then
reassembling the produced chunks returns the original buffer. -/
theorem fragment_reassemble_roundtrip (cfg : ChunkerConfig) (mid : List Nat)
    (ts : Int) (data : List Nat) (msg : Message)
    (hne : data ≠ []) (h : chunkMessage cfg mid ts data = .ok msg) :
    reassembleMessage msg.chunks = .ok data := by
  obtain ⟨hle, hchunks, _⟩ := chunkMessage_ok cfg mid ts data msg h
  set p := calculatePayloadSize cfg with hpdef
  set total := calculateTotalChunks data.length p with htdef
  have hp : 0 < p := calculatePayloadSize_pos cfg
  have hmod : total % 2 ^ 16 = total := Nat.mod_eq_of_lt (by omega)
  have hlen0 : 0 < data.length := List.length_pos.mpr hne
  have htpos : 0 < total := by
    rw [htdef]
    unfold calculateTotalChunks
    exact (Nat.le_div_iff_mul_le hp).mpr (by omega)
  set chunkAt := fun i => createChunk cfg data mid ts i (total % 2 ^ 16) p with hca
  have hseq : ∀ i < total, (chunkAt i).metadata.sequence = i := by
    intro i hi
    rw [hca]
    simp only [createChunk_sequence]
    exact Nat.mod_eq_of_lt (by omega)
  obtain ⟨t', ht'⟩ : ∃ t', total = t' + 1 := ⟨total - 1, by omega⟩
  have hcons : msg.chunks = chunkAt 0 :: (List.range t').map (chunkAt ∘ Nat.succ) := by
    rw [hchunks, ht', List.range_succ_eq_map, List.map_cons, List.map_map]
  have hmem : ∀ c ∈ msg.chunks, c.metadata.messageID = mid ∧
      c.metadata.totalChunks = total := by
    intro c hc
    rw [hchunks] at hc
    obtain ⟨i, _, rfl⟩ := List.mem_map.mp hc
    rw [hca]
    exact ⟨createChunk_messageID .., by rw [createChunk_totalChunks, hmod]⟩
  have hlenc : msg.chunks.length = total := by rw [hchunks]; simp
  have hsorted : List.Sorted seqLE msg.chunks := by
    rw [hchunks]
    rw [List.Sorted, List.pairwise_map]
    refine (List.sorted_lt_range total).imp_of_mem ?_
    intro a b ha hb hab
    have ha' := List.mem_range.mp ha
    have hb' := List.mem_range.mp hb
    show (chunkAt a).metadata.sequence ≤ (chunkAt b).metadata.sequence
    rw [hseq a ha', hseq b hb']
    omega
  have hverify : verifyChunks msg.chunks 0 = .ok () := by
    rw [hchunks, List.range_eq_range']
    refine verifyChunks_ok_of _ total 0 ?_
    intro j hj
    have hj' : j < total := by
      have := List.mem_range'_1.mp hj
      omega
    exact ⟨hseq j hj', (createChunk_checksum ..).symm⟩
  have hhead : ∃ c0 rest, msg.chunks = c0 :: rest ∧
      c0.metadata.messageID = mid ∧ c0.metadata.totalChunks = total := by
    refine ⟨chunkAt 0, _, hcons, ?_, ?_⟩
    · exact createChunk_messageID ..
    · rw [hca]; rw [createChunk_totalChunks, hmod]
  obtain ⟨c0, rest, hc0, hcid, hctot⟩ := hhead
  have hcheck : checkSameMessage c0.metadata.messageID c0.metadata.totalChunks
      (c0 :: rest) = .ok () := by
    rw [← hc0]
    refine checkSameMessage_ok _ _ _ ?_
    intro c hc
    rw [hcid, hctot]
    exact hmem c hc
  have hlen_eq : (c0 :: rest).length = c0.metadata.totalChunks := by
    rw [← hc0, hlenc, hctot]
  have hsort_eq : List.insertionSort seqLE (c0 :: rest) = c0 :: rest := by
    rw [← hc0]
    exact List.Sorted.insertionSort_eq hsorted
  have hverify' : verifyChunks (c0 :: rest) 0 = .ok () := by
    rw [← hc0]
    exact hverify
  have hfold : (c0 :: rest).foldl (fun acc c => acc ++ c.payload) [] = data := by
    rw [← hc0, foldl_append_payload, List.nil_append, hchunks, List.map_map]
    have hpay : ((List.range total).map
        ((fun c => c.payload) ∘ fun i => createChunk cfg data mid ts i (total % 2 ^ 16) p)) =
        (List.range total).map (fun i => (data.drop (i * p)).take p) := by
      apply List.map_congr_left
      intro i _
      exact createChunk_payload_eq ..
    rw [hpay]
    exact join_chunks p hp total data htdef
  rw [hc0]
  simp only [reassembleMessage, hcheck, hlen_eq, hsort_eq, hverify', hfold]
  simp

/-- Concrete hex-encoding configuration used by witnesses. -/
def cfgHexW : ChunkerConfig :=
  { encoding := strHex, maxChunkSize := 250, addRedundancy := false,
    compression := false, dnsNamePfx := [] }

/-- Concrete all-zero 16-byte message id used by witnesses. -/
def mid0W : List Nat := List.replicate 16 0

/-- Witness for the round-trip theorem at a concrete input: fragmenting
`[1, 2, 3]` with hex encoding and reassembling returns `[1, 2, 3]`. -/
theorem fragment_reassemble_roundtrip_witness :
    (chunkMessage cfgHexW mid0W 0 [1, 2, 3]).map
      (fun m => reassembleMessage m.chunks) = .ok (.ok [1, 2, 3]) := by
  cases hh : chunkMessage cfgHexW mid0W 0 [1, 2, 3] with
  | error e =>
    have hok : (chunkMessage cfgHexW mid0W 0 [1, 2, 3]).isOk = true := by decide
    rw [hh] at hok
    exact absurd hok (by simp [Except.isOk, Except.toBool])
  | ok m =>
    simp only [Except.map]
    rw [fragment_reassemble_roundtrip cfgHexW mid0W 0 [1, 2, 3] m (by decide) hh]

/-- Counterexample to C1 as stated: for the empty buffer, fragmentation
succeeds with zero chunks and reassembly then fails with the no-chunks
error instead of returning the empty buffer. -/
theorem roundtrip_fails_on_empty_buffer :
    (chunkMessage cfgHexW mid0W 0 []).map
      (fun m => reassembleMessage m.chunks) = .ok (.error .noChunks) := rfl

lemma map_eraseIdx {α β : Type} (f : α → β) (l : List α) (k : Nat) :
    (l.map f).eraseIdx k = (l.eraseIdx k).map f := by
  rw [List.eraseIdx_eq_take_drop_succ, List.eraseIdx_eq_take_drop_succ,
    List.map_append, List.map_take, List.map_drop]

lemma eraseIdx_range_split (n k : Nat) (hk : k < n) :
    (List.range n).eraseIdx k = List.range k ++ List.range' (k + 1) (n - (k + 1)) := by
  rw [List.eraseIdx_eq_take_drop_succ, List.take_range, Nat.min_eq_left (le_of_lt hk)]
  congr 1
  have h0 := List.range'_append_1 0 (k + 1) (n - (k + 1))
  rw [Nat.zero_add] at h0
  have hr : List.range n = List.range' 0 (k + 1) ++ List.range' (k + 1) (n - (k + 1)) := by
    rw [List.range_eq_range', h0]
    congr 1
    omega
  rw [hr, List.drop_left' (by simp)]

lemma mem_eraseIdx_range (n k i : Nat) (hk : k < n) :
    i ∈ (List.range n).eraseIdx k ↔ i < n ∧ i ≠ k := by
  rw [eraseIdx_range_split n k hk, List.mem_append, List.mem_range, List.mem_range']
  constructor
  · rintro (h | ⟨j, hj, rfl⟩) <;> omega
  · intro ⟨h1, h2⟩
    rcases Nat.lt_or_ge i k with h | h
    · exact Or.inl h
    · exact Or.inr ⟨i - (k + 1), by omega, by omega⟩

lemma filter_range_decide_eq (n k : Nat) (hk : k < n) :
    (List.range n).filter (fun i => decide (i = k)) = [k] := by
  induction n with
  | zero => omega
  | succ m ih =>
    rw [List.range_succ, List.filter_append]
    by_cases hkm : k = m
    · subst hkm
      have h1 : (List.range k).filter (fun i => decide (i = k)) = [] := by
        rw [List.filter_eq_nil_iff]
        intro a ha
        have := List.mem_range.mp ha
        simp
        omega
      rw [h1]
      simp
    · have hk' : k < m := by omega
      rw [ih hk']
      have h2 : [m].filter (fun i => decide (i = k)) = [] := by
        simp
        omega
      rw [h2, List.append_nil]

/-- C4 (amended): dropping any single chunk from a fragmentation result
with at least two chunks makes reassembly fail with `IncompleteMessage`
naming exactly the dropped chunk's sequence number. -/
theorem reassemble_after_drop_one (cfg : ChunkerConfig) (mid : List Nat)
    (ts : Int) (data : List Nat) (msg : Message) (k : Nat)
    (h : chunkMessage cfg mid ts data = .ok msg)
    (h2 : 2 ≤ msg.chunks.length) (hk : k < msg.chunks.length) :
    (msg.chunks.get ⟨k, hk⟩).metadata.sequence = k ∧
    reassembleMessage (msg.chunks.eraseIdx k) = .error (.incomplete [k]) := by
  obtain ⟨hle, hchunks, _⟩ := chunkMessage_ok cfg mid ts data msg h
  set p := calculatePayloadSize cfg with hpdef
  set total := calculateTotalChunks data.length p with htdef
  set chunkAt := fun i => createChunk cfg data mid ts i (total % 2 ^ 16) p with hca
  have hmod : total % 2 ^ 16 = total := Nat.mod_eq_of_lt (by omega)
  have hlenc : msg.chunks.length = total := by rw [hchunks]; simp
  have h2' : 2 ≤ total := hlenc ▸ h2
  have hk' : k < total := hlenc ▸ hk
  have hseq : ∀ i < total, (chunkAt i).metadata.sequence = i := by
    intro i hi
    rw [hca]
    simp only [createChunk_sequence]
    exact Nat.mod_eq_of_lt (by omega)
  have hget : msg.chunks.get ⟨k, hk⟩ = chunkAt k := by
    rw [List.get_of_eq hchunks]
    simp
  have her : msg.chunks.eraseIdx k = ((List.range total).eraseIdx k).map chunkAt := by
    rw [hchunks, map_eraseIdx]
  have hmem : ∀ c ∈ msg.chunks.eraseIdx k, c.metadata.messageID = mid ∧
      c.metadata.totalChunks = total := by
    intro c hc
    rw [her] at hc
    obtain ⟨j, _, rfl⟩ := List.mem_map.mp hc
    rw [hca]
    exact ⟨createChunk_messageID .., by rw [createChunk_totalChunks, hmod]⟩
  have hlen_er : (msg.chunks.eraseIdx k).length = total - 1 := by
    rw [her, List.length_map, List.length_eraseIdx_of_lt (by simpa using hk')]
    simp
  have hne : msg.chunks.eraseIdx k ≠ [] := by
    intro hc
    rw [hc] at hlen_er
    simp at hlen_er
    omega
  obtain ⟨c0, rest, he⟩ := List.exists_cons_of_ne_nil hne
  have hc0mem : c0 ∈ msg.chunks.eraseIdx k := by rw [he]; exact List.mem_cons_self ..
  obtain ⟨hcid, hctot⟩ := hmem c0 hc0mem
  have hcheck : checkSameMessage c0.metadata.messageID c0.metadata.totalChunks
      (c0 :: rest) = .ok () := by
    rw [← he]
    exact checkSameMessage_ok _ _ _ (fun c hc => by rw [hcid, hctot]; exact hmem c hc)
  have hlen_ne : ((c0 :: rest).length ≠ c0.metadata.totalChunks) := by
    rw [← he, hlen_er, hctot]
    omega
  have hcong : ∀ i ∈ List.range total,
      (! (msg.chunks.eraseIdx k).any (fun c => c.metadata.sequence == i))
        = (fun i => decide (i = k)) i := by
    intro i hi
    have hi' := List.mem_range.mp hi
    have hval : ((msg.chunks.eraseIdx k).any
        (fun c => c.metadata.sequence == i)) = true ↔ i ≠ k := by
      rw [List.any_eq_true]
      constructor
      · rintro ⟨c, hc, hpc⟩
        rw [her] at hc
        obtain ⟨j, hj, rfl⟩ := List.mem_map.mp hc
        have hj' := (mem_eraseIdx_range total k j hk').mp hj
        rw [hseq j hj'.1] at hpc
        have : j = i := by simpa using hpc
        omega
      · intro hik
        refine ⟨chunkAt i, ?_, ?_⟩
        · rw [her]
          exact List.mem_map.mpr
            ⟨i, (mem_eraseIdx_range total k i hk').mpr ⟨hi', hik⟩, rfl⟩
        · simp [hseq i hi']
    by_cases hik : i = k
    · have hfalse : ((msg.chunks.eraseIdx k).any
          (fun c => c.metadata.sequence == i)) = false := by
        cases hb : ((msg.chunks.eraseIdx k).any (fun c => c.metadata.sequence == i))
        · rfl
        · exact absurd (hval.mp hb) (by simp [hik])
      rw [hfalse]
      simp [hik]
    · rw [hval.mpr hik]
      simp [hik]
  have hmiss : findMissingChunks (c0 :: rest) c0.metadata.totalChunks = [k] := by
    rw [← he, hctot]
    unfold findMissingChunks
    rw [List.filter_congr hcong]
    exact filter_range_decide_eq total k hk'
  refine ⟨by rw [hget]; exact hseq k hk', ?_⟩
  rw [he]
  simp only [reassembleMessage, hcheck]
  rw [if_pos hlen_ne, hmiss]

/-- Witness for the drop-one theorem at a concrete input: a 112-byte
buffer fragments into two hex chunks, and dropping chunk 1 yields
`IncompleteMessage [1]`. -/
theorem reassemble_after_drop_one_witness :
    (chunkMessage cfgHexW mid0W 0 (List.replicate 112 7)).map
      (fun m => reassembleMessage (m.chunks.eraseIdx 1)) =
      .ok (.error (.incomplete [1])) := by
  cases hh : chunkMessage cfgHexW mid0W 0 (List.replicate 112 7) with
  | error e =>
    have hok : (chunkMessage cfgHexW mid0W 0 (List.replicate 112 7)).isOk = true := by
      decide
    rw [hh] at hok
    exact absurd hok (by simp [Except.isOk, Except.toBool])
  | ok m =>
    simp only [Except.map]
    have hlen : m.chunks.length = 2 := by
      rw [(chunkMessage_ok _ _ _ _ _ hh).2.1]
      simp only [List.length_map, List.length_range]
      rfl
    rw [(reassemble_after_drop_one cfgHexW mid0W 0 (List.replicate 112 7) m 1 hh
      (by omega) (by omega)).2]

/-- Counterexample to C4 as stated: for a fragmentation producing a single
chunk, removing that chunk leaves nothing and reassembly reports the
no-chunks error, not `IncompleteMessage` naming sequence 0. -/
theorem drop_only_chunk_not_incomplete :
    (chunkMessage cfgHexW mid0W 0 [65]).map
      (fun m => reassembleMessage (m.chunks.eraseIdx 0)) = .ok (.error .noChunks) ∧
    (Except.error ReassemblyError.noChunks : Except ReassemblyError (List Nat)) ≠
      .error (.incomplete [0]) :=
  ⟨rfl, by simp⟩

lemma verifyChunks_err_kinds (l : List Chunk) : ∀ (i : Nat),
    verifyChunks l i = .ok () ∨ ∃ j, verifyChunks l i = .error (.sequenceError j) ∨
      verifyChunks l i = .error (.checksumError j) := by
  induction l with
  | nil => intro i; exact Or.inl rfl
  | cons c rest ih =>
    intro i
    by_cases h1 : c.metadata.sequence ≠ i
    · exact Or.inr ⟨i, Or.inl (by simp [verifyChunks, h1])⟩
    · by_cases h2 : calculateChecksum c.payload ≠ c.metadata.checksum
      · exact Or.inr ⟨i, Or.inr (by simp [verifyChunks, h1, h2])⟩
      · have hstep : verifyChunks (c :: rest) i = verifyChunks rest (i + 1) := by
          simp [verifyChunks, h1, h2]
        rw [hstep]
        exact ih (i + 1)

lemma verifyChunks_ok_seqs (l : List Chunk) : ∀ (i : Nat),
    verifyChunks l i = .ok () →
    l.map (fun c => c.metadata.sequence) = List.range' i l.length := by
  induction l with
  | nil => intro i _; rfl
  | cons c rest ih =>
    intro i h
    by_cases h1 : c.metadata.sequence ≠ i
    · rw [show verifyChunks (c :: rest) i = .error (.sequenceError i) from by
        simp [verifyChunks, h1]] at h
      cases h
    · by_cases h2 : calculateChecksum c.payload ≠ c.metadata.checksum
      · rw [show verifyChunks (c :: rest) i = .error (.checksumError i) from by
          simp [verifyChunks, h1, h2]] at h
        cases h
      · rw [show verifyChunks (c :: rest) i = verifyChunks rest (i + 1) from by
          simp [verifyChunks, h1, h2]] at h
        push_neg at h1
        rw [List.map_cons, ih (i + 1) h, List.length_cons, List.range'_succ, h1]

/-- C5: a chunk list with a single message id and total, whose length
equals the total but whose sequence-number multiset is not exactly
`{0, …, total-1}`, makes `ReassembleMessage` fail with one of the two
`ProtocolError` kinds of the verification loop (a sequence error, or a
checksum error hit at an earlier position) rather than producing output. -/
theorem reassemble_bad_multiset_protocol_error (chunks : List Chunk)
    (c0 : Chunk) (rest : List Chunk) (hc : chunks = c0 :: rest)
    (hid : ∀ c ∈ chunks, c.metadata.messageID = c0.metadata.messageID)
    (htot : ∀ c ∈ chunks, c.metadata.totalChunks = c0.metadata.totalChunks)
    (hlen : chunks.length = c0.metadata.totalChunks)
    (hbad : ¬ (chunks.map (fun c => c.metadata.sequence)).Perm
      (List.range c0.metadata.totalChunks)) :
    ∃ i, reassembleMessage chunks = .error (.sequenceError i) ∨
      reassembleMessage chunks = .error (.checksumError i) := by
  subst hc
  have hcheck : checkSameMessage c0.metadata.messageID c0.metadata.totalChunks
      (c0 :: rest) = .ok () :=
    checkSameMessage_ok _ _ _ (fun c hcm => ⟨hid c hcm, htot c hcm⟩)
  have hlen' : ¬ ((c0 :: rest).length ≠ c0.metadata.totalChunks) := by simp [hlen]
  set sorted := List.insertionSort seqLE (c0 :: rest) with hs
  have hperm : sorted.Perm (c0 :: rest) := List.perm_insertionSort ..
  rcases verifyChunks_err_kinds sorted 0 with hok | ⟨j, hj⟩
  · exfalso
    apply hbad
    have hmapseq := verifyChunks_ok_seqs sorted 0 hok
    have hlen2 : sorted.length = (c0 :: rest).length := hperm.length_eq
    have hpermmap : ((c0 :: rest).map (fun c => c.metadata.sequence)).Perm
        (sorted.map (fun c => c.metadata.sequence)) := (hperm.map _).symm
    have heq : sorted.map (fun c => c.metadata.sequence) =
        List.range c0.metadata.totalChunks := by
      rw [hmapseq, hlen2, hlen, List.range_eq_range']
    exact hpermmap.trans (heq ▸ List.Perm.refl _)
  · refine ⟨j, ?_⟩
    rcases hj with hj | hj
    · left
      simp only [reassembleMessage, hcheck]
      rw [if_neg hlen', ← hs, hj]
    · right
      simp only [reassembleMessage, hcheck]
      rw [if_neg hlen', ← hs, hj]

/-- Witness chunk with sequence 0 and a valid checksum over payload `[1]`. -/
def dupChunkW1 : Chunk :=
  { metadata := { magic := CHUNK_MAGIC, messageID := mid0W, sequence := 0,
                  totalChunks := 2, checksum := calculateChecksum [1],
                  timestamp := 0, payloadSize := 1 },
    payload := [1], encoded := [], recordName := [] }

/-- Witness chunk duplicating sequence 0 with payload `[2]`. -/
def dupChunkW2 : Chunk :=
  { metadata := { magic := CHUNK_MAGIC, messageID := mid0W, sequence := 0,
                  totalChunks := 2, checksum := calculateChecksum [2],
                  timestamp := 0, payloadSize := 1 },
    payload := [2], encoded := [], recordName := [] }

/-- Witness for the duplicate-sequence theorem at a concrete input: two
chunks both carrying sequence 0 out of a total of 2. -/
theorem reassemble_bad_multiset_witness :
    ∃ i, reassembleMessage [dupChunkW1, dupChunkW2] = .error (.sequenceError i) ∨
      reassembleMessage [dupChunkW1, dupChunkW2] = .error (.checksumError i) :=
  reassemble_bad_multiset_protocol_error _ dupChunkW1 [dupChunkW2] rfl
    (by decide) (by decide) (by decide) (by decide)

/-- The chunk assembled by a successful `decodeChunk` parse of byte list
`bs` (header fields from the first 28 bytes, payload the remainder). -/
def parsedChunk (s : List Char) (bs : List Nat) : Chunk :=
  { metadata := { magic := beVal (bs.take 4), messageID := (bs.drop 4).take 16,
                  sequence := beVal ((bs.drop 20).take 2),
                  totalChunks := beVal ((bs.drop 22).take 2),
                  checksum := beVal ((bs.drop 24).take 4), timestamp := 0,
                  payloadSize := (bs.drop 28).length % 2 ^ 16 },
    payload := bs.drop 28, encoded := s, recordName := [] }

instance instDecEqExcept {e a : Type} [DecidableEq e] [DecidableEq a] :
    DecidableEq (Except e a) := fun x y =>
  match x, y with
  | .error u, .error v =>
    if h : u = v then isTrue (by rw [h]) else isFalse (fun hc => h (by injection hc))
  | .error _, .ok _ => isFalse (fun hc => Except.noConfusion hc)
  | .ok _, .error _ => isFalse (fun hc => Except.noConfusion hc)
  | .ok u, .ok v =>
    if h : u = v then isTrue (by rw [h]) else isFalse (fun hc => h (by injection hc))

/-- C10: `DecodeChunk` is total on its interface: every input yields a
parsed chunk or an error; a decoded byte string shorter than the 28-byte
header fails with the too-small error, a wrong magic constant fails with
the invalid-magic error, and a successful parse reads only in-bounds
slices of the decoded bytes (header fields from the first 28 bytes,
payload exactly the remainder). -/
theorem decodeChunk_total_parse (cfg : ChunkerConfig) (s : List Char) :
    (∀ e, textDecode cfg s = .error e →
      decodeChunk cfg s = .error (.decodeFailed e)) ∧
    (∀ bs, textDecode cfg s = .ok bs → bs.length < METADATA_OVERHEAD →
      decodeChunk cfg s = .error (.tooSmall bs.length)) ∧
    (∀ bs, textDecode cfg s = .ok bs → METADATA_OVERHEAD ≤ bs.length →
      beVal (bs.take 4) ≠ CHUNK_MAGIC →
      decodeChunk cfg s = .error (.invalidMagic (beVal (bs.take 4)))) ∧
    (∀ c, decodeChunk cfg s = .ok c →
      ∃ bs, textDecode cfg s = .ok bs ∧ METADATA_OVERHEAD ≤ bs.length ∧
        c.metadata.magic = CHUNK_MAGIC ∧
        c.metadata.messageID = (bs.drop 4).take 16 ∧
        c.metadata.sequence = beVal ((bs.drop 20).take 2) ∧
        c.metadata.totalChunks = beVal ((bs.drop 22).take 2) ∧
        c.metadata.checksum = beVal ((bs.drop 24).take 4) ∧
        c.payload = bs.drop 28 ∧ c.encoded = s) := by
  cases ht : textDecode cfg s with
  | error e0 =>
    refine ⟨fun e he => ?_, fun bs hbs => ?_, fun bs hbs => ?_, fun c hc => ?_⟩
    · obtain rfl : e0 = e := by injection he
      simp [decodeChunk, ht]
    · cases hbs
    · cases hbs
    · rw [show decodeChunk cfg s = .error (.decodeFailed e0) from by
        simp [decodeChunk, ht]] at hc
      cases hc
  | ok bs0 =>
    refine ⟨fun e he => ?_, fun bs hbs => ?_, fun bs hbs => ?_, fun c hc => ?_⟩
    · cases he
    · obtain rfl : bs0 = bs := by injection hbs
      intro hlen
      simp [decodeChunk, ht, hlen]
    · obtain rfl : bs0 = bs := by injection hbs
      intro hlen hmag
      rw [show decodeChunk cfg s = .error (.invalidMagic (beVal (bs0.take 4))) from by
        simp [decodeChunk, ht]
        rw [if_neg (by omega), if_neg (by simpa using hmag)]]
    · by_cases hlen : bs0.length < METADATA_OVERHEAD
      · rw [show decodeChunk cfg s = .error (.tooSmall bs0.length) from by
          simp [decodeChunk, ht, hlen]] at hc
        cases hc
      · by_cases hmag : beVal (bs0.take 4) = CHUNK_MAGIC
        · have hd : decodeChunk cfg s = .ok (parsedChunk s bs0) := by
            simp only [decodeChunk, ht, parsedChunk]
            rw [if_neg hlen, if_neg (by simpa using hmag)]
          have hceq : c = parsedChunk s bs0 := by
            rw [hd] at hc
            exact (Except.ok.inj hc).symm
          subst hceq
          exact ⟨bs0, rfl, by omega, hmag, rfl, rfl, rfl, rfl, rfl, rfl⟩
        · rw [show decodeChunk cfg s = .error (.invalidMagic (beVal (bs0.take 4))) from by
            simp [decodeChunk, ht]
            rw [if_neg hlen, if_neg (by simpa using hmag)]] at hc
          cases hc

/-- Witness for the `DecodeChunk` theorem at concrete inputs: the hex
string `"00"` decodes to one byte, below the header size, and is
rejected as too small. -/
theorem decodeChunk_total_parse_witness :
    decodeChunk cfgHexW ['0', '0'] = .error (.tooSmall 1) :=
  (decodeChunk_total_parse cfgHexW ['0', '0']).2.1 [0] (by decide) (by decide)

end ChunkerM


namespace DnsStorage

/-- `MessageState` from the storage source (`iota` constants). -/
inductive MessageState where
  | stateNew
  | stateDelivered
  | stateConsumed
  | stateExpired
deriving DecidableEq

/-- `ConsumerRecord`; timestamps are `Int` wall-clock inputs. -/
structure ConsumerRecord where
  clientIP : List Char
  fetchedAt : Int
  chunksFetched : List (List Char)
deriving DecidableEq

/-- `StorageStats`; Go `int` counters are embedded as `Int` so that the
decrements behave exactly as in the source. -/
structure StorageStats where
  totalMessages : Int
  newMessages : Int
  delivered : Int
  consumed : Int
  totalChunks : Int
  memoryUsage : Int
deriving DecidableEq

/-- `Message` from the storage source (a stored message). -/
structure StoredMessage where
  id : List Char
  chunks : List (List Char × List Char)
  totalChunks : Nat
  manifest : List Char
  createdAt : Int
  state : MessageState
  consumers : List ConsumerRecord
deriving DecidableEq

/-- Association-list lookup standing in for a Go map read. -/
def lookupA {b : Type} (k : List Char) : List (List Char × b) → Option b
  | [] => none
  | (k1, v) :: rest => if k1 = k then some v else lookupA k rest

/-- Association-list insert-or-replace standing in for a Go map write. -/
def upsertA {b : Type} (k : List Char) (v : b) : List (List Char × b) → List (List Char × b)
  | [] => [(k, v)]
  | (k1, v1) :: rest => if k1 = k then (k, v) :: rest else (k1, v1) :: upsertA k v rest

/-- Association-list delete standing in for Go's `delete`. -/
def removeA {b : Type} (k : List Char) : List (List Char × b) → List (List Char × b)
  | [] => []
  | (k1, v1) :: rest => if k1 = k then removeA k rest else (k1, v1) :: removeA k rest

/-- `MemoryStorage`: messages by id, chunks by rendered name, per-client
delivery index, and aggregate stats.  Go map iteration order is
unspecified; the association lists fix one order, and no proved statement
depends on it. -/
structure MemoryState where
  messages : List (List Char × StoredMessage)
  chunks : List (List Char × List Char)
  index : List (List Char × List (List Char))
  stats : StorageStats
deriving DecidableEq

/-- `NewMemoryStorage()`. -/
def emptyMemoryState : MemoryState :=
  { messages := [], chunks := [], index := [],
    stats := { totalMessages := 0, newMessages := 0, delivered := 0,
               consumed := 0, totalChunks := 0, memoryUsage := 0 } }

/-- Store-level failures (`"already exists"`, `"not found"`). -/
inductive StoreError where
  | alreadyExists (id : List Char)
  | notFound (id : List Char)
deriving DecidableEq

/-- `MemoryStorage.StoreMessage`: reject duplicate ids, force state `New`
and the current time, index every chunk, bump counters. -/
def storeMessage (ms : MemoryState) (msg : StoredMessage) (now : Int) :
    MemoryState × Except StoreError Unit :=
  if (lookupA msg.id ms.messages).isSome then
    (ms, .error (.alreadyExists msg.id))
  else
    let msg1 := { msg with state := MessageState.stateNew, createdAt := now }
    ({ messages := upsertA msg.id msg1 ms.messages,
       chunks := msg.chunks.foldl (fun m kv => upsertA kv.1 kv.2 m) ms.chunks,
       index := ms.index,
       stats := { ms.stats with
         totalMessages := ms.stats.totalMessages + 1,
         newMessages := ms.stats.newMessages + 1,
         totalChunks := ms.stats.totalChunks + msg.chunks.length } }, .ok ())

/-- `MemoryStorage.GetNewMessages`: messages in state `New` whose id the
client's delivery index does not contain. -/
def getNewMessages (ms : MemoryState) (clientID : List Char) : List StoredMessage :=
  let seen := (lookupA clientID ms.index).getD []
  (ms.messages.filter (fun kv =>
    !decide (kv.1 ∈ seen) && decide (kv.2.state = MessageState.stateNew))).map
    (fun kv => kv.2)

/-- `MemoryStorage.MarkAsDelivered`: `New → Delivered` with counter moves
on the first delivery only; always appends a consumer record and extends
the client's delivery index. -/
def markAsDelivered (ms : MemoryState) (msgID clientID : List Char) (now : Int) :
    MemoryState × Except StoreError Unit :=
  match lookupA msgID ms.messages with
  | none => (ms, .error (.notFound msgID))
  | some msg =>
    let pair :=
      if msg.state = MessageState.stateNew then
        ({ msg with state := MessageState.stateDelivered },
         { ms.stats with newMessages := ms.stats.newMessages - 1,
                         delivered := ms.stats.delivered + 1 })
      else (msg, ms.stats)
    let msg2 := { pair.1 with consumers := pair.1.consumers ++
      [{ clientIP := clientID, fetchedAt := now, chunksFetched := [] }] }
    ({ ms with messages := upsertA msgID msg2 ms.messages,
               index := upsertA clientID
                 (((lookupA clientID ms.index).getD []) ++ [msgID]) ms.index,
               stats := pair.2 }, .ok ())

/-- `MemoryStorage.MarkAsConsumed`: transition to `Consumed` and bump the
counter unless already consumed; the client id is unused, as in the
source. -/
def markAsConsumed (ms : MemoryState) (msgID clientID : List Char) :
    MemoryState × Except StoreError Unit :=
  match lookupA msgID ms.messages with
  | none => (ms, .error (.notFound msgID))
  | some msg =>
    if msg.state ≠ MessageState.stateConsumed then
      ({ ms with
         messages := upsertA msgID { msg with state := MessageState.stateConsumed }
           ms.messages,
         stats := { ms.stats with consumed := ms.stats.consumed + 1 } }, .ok ())
    else (ms, .ok ())

/-- `MemoryStorage.CleanExpired`: drop every message created before
`now - ttl`, delete its chunk index entries, adjust counters, and return
the number removed. -/
def cleanExpired (ms : MemoryState) (ttl now : Int) : MemoryState × Nat :=
  let cutoff := now - ttl
  let expired := ms.messages.filter (fun kv => decide (kv.2.createdAt < cutoff))
  let kept := ms.messages.filter (fun kv => !decide (kv.2.createdAt < cutoff))
  ({ ms with
     messages := kept,
     chunks := expired.foldl
       (fun m kv => kv.2.chunks.foldl (fun m2 ckv => removeA ckv.1 m2) m) ms.chunks,
     stats := { ms.stats with
       totalMessages := ms.stats.totalMessages - expired.length,
       totalChunks := ms.stats.totalChunks -
         (expired.map (fun kv => (kv.2.chunks.length : Int))).sum } },
   expired.length)

/-- `QueueManager.ConsumeMessages`: fetch the new messages for the client,
then mark each as delivered. -/
def consumeMessages (ms : MemoryState) (clientID : List Char) (now : Int) :
    List StoredMessage × MemoryState :=
  let msgs := getNewMessages ms clientID
  (msgs, msgs.foldl (fun st m => (markAsDelivered st m.id clientID now).1) ms)

/-- `QueueManager.AcknowledgeMessage` delegates to `MarkAsConsumed`. -/
def acknowledgeMessage (ms : MemoryState) (msgID clientID : List Char) :
    MemoryState × Except StoreError Unit :=
  markAsConsumed ms msgID clientID

/-- The document `FileStorage.Save` serializes: messages, per-client
index and stats (the chunk index is rebuilt on load, never persisted). -/
structure SnapshotS where
  messages : List (List Char × StoredMessage)
  index : List (List Char × List (List Char))
  stats : StorageStats
deriving DecidableEq

/-- `FileStorage`: the embedded in-memory store plus the last
successfully written on-disk snapshot (`none` before any save). -/
structure FileState where
  mem : MemoryState
  disk : Option SnapshotS
deriving DecidableEq

/-- The snapshot `Save` would write for a given in-memory state. -/
def snapshotOf (ms : MemoryState) : SnapshotS :=
  { messages := ms.messages, index := ms.index, stats := ms.stats }

/-- `FileStorage.Save` (modelled as always succeeding: the write+rename is
an environment effect; a disk failure surfaces an error and is out of
scope of the claims settled here). -/
def fileSave (fs : FileState) : FileState :=
  { fs with disk := some (snapshotOf fs.mem) }

/-- `FileStorage.StoreMessage`: store in memory first, then persist. -/
def fileStoreMessage (fs : FileState) (msg : StoredMessage) (now : Int) :
    FileState × Except StoreError Unit :=
  match storeMessage fs.mem msg now with
  | (mem1, .error e) => ({ fs with mem := mem1 }, .error e)
  | (mem1, .ok _) => (fileSave { fs with mem := mem1 }, .ok ())

/-- `MarkAsDelivered` on a `FileStorage` value: Go method promotion uses
the embedded `MemoryStorage` method, so no `Save` is involved. -/
def fileMarkAsDelivered (fs : FileState) (msgID clientID : List Char) (now : Int) :
    FileState × Except StoreError Unit :=
  let r := markAsDelivered fs.mem msgID clientID now
  ({ fs with mem := r.1 }, r.2)

/-- `MarkAsConsumed` on a `FileStorage` value (promoted, no `Save`). -/
def fileMarkAsConsumed (fs : FileState) (msgID clientID : List Char) :
    FileState × Except StoreError Unit :=
  let r := markAsConsumed fs.mem msgID clientID
  ({ fs with mem := r.1 }, r.2)

/-- `CleanExpired` on a `FileStorage` value (promoted, no `Save`). -/
def fileCleanExpired (fs : FileState) (ttl now : Int) : FileState × Nat :=
  let r := cleanExpired fs.mem ttl now
  ({ fs with mem := r.1 }, r.2)

end DnsStorage

namespace DnsStorage

lemma lookupA_upsertA {b : Type} (k k1 : List Char) (v : b)
    (l : List (List Char × b)) :
    lookupA k1 (upsertA k v l) = if k = k1 then some v else lookupA k1 l := by
  induction l with
  | nil => by_cases h : k = k1 <;> simp [upsertA, lookupA, h]
  | cons kv rest ih =>
    obtain ⟨k2, v2⟩ := kv
    by_cases h1 : k2 = k
    · subst h1
      by_cases h2 : k2 = k1 <;> simp [upsertA, lookupA, h2]
    · by_cases h2 : k2 = k1
      · subst h2
        have hne : ¬ k = k2 := fun hc => h1 hc.symm
        simp [upsertA, lookupA, h1, hne]
      · simp [upsertA, lookupA, h1, h2, ih]

lemma mem_of_lookupA {b : Type} (l : List (List Char × b)) (k : List Char) (v : b)
    (h : lookupA k l = some v) : (k, v) ∈ l := by
  induction l with
  | nil => cases h
  | cons kv rest ih =>
    obtain ⟨k2, v2⟩ := kv
    by_cases h2 : k2 = k
    · subst h2
      rw [lookupA, if_pos rfl] at h
      obtain rfl : v2 = v := by injection h
      exact List.mem_cons_self ..
    · rw [lookupA, if_neg h2] at h
      exact List.mem_cons_of_mem _ (ih h)

lemma lookupA_of_mem_nodup {b : Type} (l : List (List Char × b)) (k : List Char)
    (v : b) (hnd : (l.map (fun kv => kv.1)).Nodup) (hm : (k, v) ∈ l) :
    lookupA k l = some v := by
  induction l with
  | nil => cases hm
  | cons kv rest ih =>
    obtain ⟨k2, v2⟩ := kv
    rw [List.map_cons, List.nodup_cons] at hnd
    rcases List.mem_cons.mp hm with heq | hm2
    · have h1 : k2 = k := (congrArg Prod.fst heq).symm
      have h2 : v2 = v := (congrArg Prod.snd heq).symm
      subst h1
      subst h2
      rw [lookupA, if_pos rfl]
    · have hne : k2 ≠ k := by
        intro hc
        subst hc
        exact hnd.1 (List.mem_map.mpr ⟨(k2, v), hm2, rfl⟩)
      rw [lookupA, if_neg hne]
      exact ih hnd.2 hm2

lemma lookupA_none_not_mem {b : Type} (l : List (List Char × b)) (k : List Char)
    (h : lookupA k l = none) : k ∉ l.map (fun kv => kv.1) := by
  induction l with
  | nil => simp
  | cons kv rest ih =>
    obtain ⟨k2, v2⟩ := kv
    by_cases h2 : k2 = k
    · rw [lookupA, if_pos h2] at h
      cases h
    · rw [lookupA, if_neg h2] at h
      simp only [List.map_cons, List.mem_cons]
      rintro (rfl | hm)
      · exact h2 rfl
      · exact ih h hm

lemma lookupA_some_mem_key {b : Type} (l : List (List Char × b)) (k : List Char)
    (v : b) (h : lookupA k l = some v) : k ∈ l.map (fun kv => kv.1) :=
  List.mem_map.mpr ⟨(k, v), mem_of_lookupA l k v h, rfl⟩

lemma fst_upsertA_mem {b : Type} (k : List Char) (v : b) (l : List (List Char × b))
    (hk : k ∈ l.map (fun kv => kv.1)) :
    (upsertA k v l).map (fun kv => kv.1) = l.map (fun kv => kv.1) := by
  induction l with
  | nil => cases hk
  | cons kv rest ih =>
    obtain ⟨k2, v2⟩ := kv
    by_cases h2 : k2 = k
    · subst h2
      simp [upsertA]
    · rw [List.map_cons, List.mem_cons] at hk
      rcases hk with hc | hk
      · exact absurd hc.symm h2
      · simp [upsertA, h2, ih hk]

lemma fst_upsertA_not_mem {b : Type} (k : List Char) (v : b)
    (l : List (List Char × b)) (hk : k ∉ l.map (fun kv => kv.1)) :
    (upsertA k v l).map (fun kv => kv.1) = l.map (fun kv => kv.1) ++ [k] := by
  induction l with
  | nil => simp [upsertA]
  | cons kv rest ih =>
    obtain ⟨k2, v2⟩ := kv
    simp only [List.map_cons, List.mem_cons] at hk
    push_neg at hk
    have h2 : k2 ≠ k := fun hc => hk.1 hc.symm
    simp [upsertA, h2, ih hk.2]

lemma mem_upsertA {b : Type} (k : List Char) (v : b) (l : List (List Char × b))
    (kv1 : List Char × b) (h : kv1 ∈ upsertA k v l) : kv1 = (k, v) ∨ kv1 ∈ l := by
  induction l with
  | nil => simpa [upsertA] using h
  | cons kv2 rest ih =>
    obtain ⟨k2, v2⟩ := kv2
    by_cases h2 : k2 = k
    · subst h2
      rw [upsertA, if_pos rfl, List.mem_cons] at h
      rcases h with h | h
      · exact Or.inl h
      · exact Or.inr (List.mem_cons_of_mem _ h)
    · rw [upsertA, if_neg h2, List.mem_cons] at h
      rcases h with h | h
      · exact Or.inr (h ▸ List.mem_cons_self ..)
      · rcases ih h with h | h
        · exact Or.inl h
        · exact Or.inr (List.mem_cons_of_mem _ h)

/-- Well-formedness of reachable store states: message keys are distinct
(Go map semantics) and no stored message ever carries `StateExpired`
(nothing in the storage code writes that state). -/
def wfState (ms : MemoryState) : Prop :=
  (ms.messages.map (fun kv => kv.1)).Nodup ∧
  ∀ kv ∈ ms.messages, kv.2.state ≠ MessageState.stateExpired

/-- Lifecycle order of the per-message state machine. -/
def rank : MessageState → Nat
  | .stateNew => 0
  | .stateDelivered => 1
  | .stateConsumed => 2
  | .stateExpired => 3

/-- One step of the store: the operations the spec's state machine ranges
over, applied with their results discarded. -/
inductive Op where
  | store (msg : StoredMessage) (now : Int)
  | getNew (clientID : List Char)
  | markDelivered (msgID clientID : List Char) (now : Int)
  | markConsumed (msgID clientID : List Char)
  | clean (ttl now : Int)
  | consume (clientID : List Char) (now : Int)

/-- Apply one operation to a store state. -/
def step (ms : MemoryState) : Op → MemoryState
  | .store msg now => (storeMessage ms msg now).1
  | .getNew _ => ms
  | .markDelivered i c now => (markAsDelivered ms i c now).1
  | .markConsumed i c => (markAsConsumed ms i c).1
  | .clean ttl now => (cleanExpired ms ttl now).1
  | .consume c now => (consumeMessages ms c now).2

/-- Run a sequence of operations from the empty store. -/
def run (ops : List Op) : MemoryState := ops.foldl step emptyMemoryState

end DnsStorage

namespace DnsStorage

/-- The message value written back by `MarkAsDelivered` when the target
exists: state promoted from `New` to `Delivered` (otherwise kept), one
consumer record appended. -/
def deliveredUpdate (msg : StoredMessage) (cid : List Char) (now : Int) :
    StoredMessage :=
  { msg with
    state := if msg.state = MessageState.stateNew then MessageState.stateDelivered
             else msg.state,
    consumers := msg.consumers ++
      [{ clientIP := cid, fetchedAt := now, chunksFetched := [] }] }

lemma markAsDelivered_none (ms : MemoryState) (tid cid : List Char) (now : Int)
    (hl : lookupA tid ms.messages = none) :
    (markAsDelivered ms tid cid now).1 = ms := by
  unfold markAsDelivered
  rw [hl]

lemma markAsDelivered_messages (ms : MemoryState) (tid cid : List Char) (now : Int)
    (msg : StoredMessage) (hl : lookupA tid ms.messages = some msg) :
    ((markAsDelivered ms tid cid now).1).messages =
      upsertA tid (deliveredUpdate msg cid now) ms.messages := by
  unfold markAsDelivered
  rw [hl]
  by_cases hnew : msg.state = MessageState.stateNew <;>
    simp [deliveredUpdate, hnew]

lemma markAsConsumed_none (ms : MemoryState) (tid cid : List Char)
    (hl : lookupA tid ms.messages = none) :
    (markAsConsumed ms tid cid).1 = ms := by
  unfold markAsConsumed
  rw [hl]

lemma markAsConsumed_already (ms : MemoryState) (tid cid : List Char)
    (msg : StoredMessage) (hl : lookupA tid ms.messages = some msg)
    (heq : msg.state = MessageState.stateConsumed) :
    (markAsConsumed ms tid cid) = (ms, .ok ()) := by
  unfold markAsConsumed
  rw [hl]
  simp [heq]

lemma markAsConsumed_messages_of_ne (ms : MemoryState) (tid cid : List Char)
    (msg : StoredMessage) (hl : lookupA tid ms.messages = some msg)
    (hne : msg.state ≠ MessageState.stateConsumed) :
    ((markAsConsumed ms tid cid).1).messages =
      upsertA tid { msg with state := MessageState.stateConsumed } ms.messages := by
  unfold markAsConsumed
  rw [hl]
  simp [hne]

lemma cleanExpired_messages (ms : MemoryState) (ttl now : Int) :
    ((cleanExpired ms ttl now).1).messages =
      ms.messages.filter (fun kv => !decide (kv.2.createdAt < now - ttl)) := rfl

lemma storeMessage_keeps (ms : MemoryState) (msg : StoredMessage) (now : Int)
    (id : List Char) (m : StoredMessage) (h : lookupA id ms.messages = some m) :
    lookupA id ((storeMessage ms msg now).1).messages = some m := by
  unfold storeMessage
  by_cases hex : (lookupA msg.id ms.messages).isSome = true
  · rw [if_pos hex]
    exact h
  · rw [if_neg hex]
    show lookupA id (upsertA msg.id _ ms.messages) = some m
    rw [lookupA_upsertA]
    by_cases hid : msg.id = id
    · subst hid
      rw [h] at hex
      simp at hex
    · rw [if_neg hid]
      exact h

lemma markAsDelivered_keeps (ms : MemoryState) (tid cid : List Char) (now : Int)
    (id : List Char) (m : StoredMessage) (h : lookupA id ms.messages = some m) :
    ∃ m', lookupA id ((markAsDelivered ms tid cid now).1).messages = some m' ∧
      rank m.state ≤ rank m'.state ∧
      (m.state ≠ MessageState.stateExpired → m'.state ≠ MessageState.stateExpired) := by
  cases hl : lookupA tid ms.messages with
  | none =>
    rw [markAsDelivered_none ms tid cid now hl]
    exact ⟨m, h, le_refl _, fun hx => hx⟩
  | some msg =>
    rw [markAsDelivered_messages ms tid cid now msg hl]
    by_cases htid : tid = id
    · subst htid
      have hm : msg = m := by
        rw [h] at hl
        injection hl with he
        exact he.symm
      subst hm
      refine ⟨deliveredUpdate msg cid now, ?_, ?_, ?_⟩
      · rw [lookupA_upsertA, if_pos rfl]
      · by_cases hnew : msg.state = MessageState.stateNew
        · rw [show (deliveredUpdate msg cid now).state =
            MessageState.stateDelivered from by simp [deliveredUpdate, hnew]]
          rw [hnew]
          decide
        · rw [show (deliveredUpdate msg cid now).state = msg.state from by
            simp [deliveredUpdate, hnew]]
      · intro hx
        by_cases hnew : msg.state = MessageState.stateNew
        · rw [show (deliveredUpdate msg cid now).state =
            MessageState.stateDelivered from by simp [deliveredUpdate, hnew]]
          decide
        · rw [show (deliveredUpdate msg cid now).state = msg.state from by
            simp [deliveredUpdate, hnew]]
          exact hx
    · rw [lookupA_upsertA, if_neg htid]
      exact ⟨m, h, le_refl _, fun hx => hx⟩

lemma markAsConsumed_keeps (ms : MemoryState) (tid cid : List Char)
    (id : List Char) (m : StoredMessage) (h : lookupA id ms.messages = some m)
    (hexp : m.state ≠ MessageState.stateExpired) :
    ∃ m', lookupA id ((markAsConsumed ms tid cid).1).messages = some m' ∧
      rank m.state ≤ rank m'.state ∧
      m'.state ≠ MessageState.stateExpired := by
  cases hl : lookupA tid ms.messages with
  | none =>
    rw [markAsConsumed_none ms tid cid hl]
    exact ⟨m, h, le_refl _, hexp⟩
  | some msg =>
    by_cases hcons : msg.state = MessageState.stateConsumed
    · rw [show (markAsConsumed ms tid cid).1 = ms from by
        rw [markAsConsumed_already ms tid cid msg hl hcons]]
      exact ⟨m, h, le_refl _, hexp⟩
    · rw [markAsConsumed_messages_of_ne ms tid cid msg hl hcons]
      by_cases htid : tid = id
      · subst htid
        have hm : msg = m := by
          rw [h] at hl
          injection hl with he
          exact he.symm
        subst hm
        refine ⟨{ msg with state := MessageState.stateConsumed }, ?_, ?_, ?_⟩
        · rw [lookupA_upsertA, if_pos rfl]
        · show rank msg.state ≤ rank MessageState.stateConsumed
          cases hs : msg.state
          · decide
          · decide
          · decide
          · exact absurd hs hexp
        · simp
      · rw [lookupA_upsertA, if_neg htid]
        exact ⟨m, h, le_refl _, hexp⟩

lemma cleanExpired_keeps (ms : MemoryState) (ttl now : Int) (id : List Char)
    (m' : StoredMessage)
    (hnd : (ms.messages.map (fun kv => kv.1)).Nodup)
    (h2 : lookupA id ((cleanExpired ms ttl now).1).messages = some m') :
    lookupA id ms.messages = some m' := by
  rw [cleanExpired_messages] at h2
  have hmem := mem_of_lookupA _ _ _ h2
  exact lookupA_of_mem_nodup _ _ _ hnd (List.mem_of_mem_filter hmem)

lemma foldl_markD_keeps (cid : List Char) (now : Int) (id : List Char) :
    ∀ (l : List StoredMessage) (ms : MemoryState) (m : StoredMessage),
    lookupA id ms.messages = some m →
    ∃ m', lookupA id
        ((l.foldl (fun st mm => (markAsDelivered st mm.id cid now).1) ms)).messages
        = some m' ∧
      rank m.state ≤ rank m'.state ∧
      (m.state ≠ MessageState.stateExpired → m'.state ≠ MessageState.stateExpired) := by
  intro l
  induction l with
  | nil => exact fun ms m h => ⟨m, h, le_refl _, fun hx => hx⟩
  | cons mm rest ih =>
    intro ms m h
    obtain ⟨m1, h1, hr1, he1⟩ := markAsDelivered_keeps ms mm.id cid now id m h
    obtain ⟨m', h', hr', he'⟩ := ih _ m1 h1
    exact ⟨m', h', le_trans hr1 hr', fun hx => he' (he1 hx)⟩

lemma consume_keeps (ms : MemoryState) (cid : List Char) (now : Int)
    (id : List Char) (m : StoredMessage) (h : lookupA id ms.messages = some m) :
    ∃ m', lookupA id ((consumeMessages ms cid now).2).messages = some m' ∧
      rank m.state ≤ rank m'.state ∧
      (m.state ≠ MessageState.stateExpired → m'.state ≠ MessageState.stateExpired) :=
  foldl_markD_keeps cid now id (getNewMessages ms cid) ms m h

lemma wf_empty : wfState emptyMemoryState := by
  constructor
  · simp [emptyMemoryState]
  · intro kv hkv
    simp [emptyMemoryState] at hkv

lemma wf_storeMessage (ms : MemoryState) (msg : StoredMessage) (now : Int)
    (h : wfState ms) : wfState (storeMessage ms msg now).1 := by
  unfold storeMessage
  by_cases hex : (lookupA msg.id ms.messages).isSome = true
  · rw [if_pos hex]
    exact h
  · rw [if_neg hex]
    have hmem : msg.id ∉ ms.messages.map (fun kv => kv.1) := by
      cases hl : lookupA msg.id ms.messages with
      | none => exact lookupA_none_not_mem _ _ hl
      | some v =>
        rw [hl] at hex
        simp at hex
    constructor
    · show ((upsertA msg.id _ ms.messages).map _).Nodup
      rw [fst_upsertA_not_mem _ _ _ hmem]
      simp [List.nodup_append, h.1, hmem]
    · intro kv hkv
      rcases mem_upsertA _ _ _ _ hkv with rfl | hm
      · simp
      · exact h.2 kv hm

lemma wf_markAsDelivered (ms : MemoryState) (tid cid : List Char) (now : Int)
    (h : wfState ms) : wfState (markAsDelivered ms tid cid now).1 := by
  cases hl : lookupA tid ms.messages with
  | none =>
    rw [markAsDelivered_none ms tid cid now hl]
    exact h
  | some msg =>
    have hkey : tid ∈ ms.messages.map (fun kv => kv.1) :=
      lookupA_some_mem_key _ _ _ hl
    have hstate : msg.state ≠ MessageState.stateExpired :=
      h.2 (tid, msg) (mem_of_lookupA _ _ _ hl)
    constructor
    · rw [markAsDelivered_messages ms tid cid now msg hl]
      show ((upsertA tid _ ms.messages).map _).Nodup
      rw [fst_upsertA_mem _ _ _ hkey]
      exact h.1
    · rw [markAsDelivered_messages ms tid cid now msg hl]
      intro kv hkv
      rcases mem_upsertA _ _ _ _ hkv with rfl | hm
      · show (deliveredUpdate msg cid now).state ≠ MessageState.stateExpired
        by_cases hnew : msg.state = MessageState.stateNew
        · rw [show (deliveredUpdate msg cid now).state =
            MessageState.stateDelivered from by simp [deliveredUpdate, hnew]]
          decide
        · rw [show (deliveredUpdate msg cid now).state = msg.state from by
            simp [deliveredUpdate, hnew]]
          exact hstate
      · exact h.2 kv hm

lemma wf_markAsConsumed (ms : MemoryState) (tid cid : List Char)
    (h : wfState ms) : wfState (markAsConsumed ms tid cid).1 := by
  cases hl : lookupA tid ms.messages with
  | none =>
    rw [markAsConsumed_none ms tid cid hl]
    exact h
  | some msg =>
    by_cases hcons : msg.state = MessageState.stateConsumed
    · rw [show (markAsConsumed ms tid cid).1 = ms from by
        rw [markAsConsumed_already ms tid cid msg hl hcons]]
      exact h
    · have hkey : tid ∈ ms.messages.map (fun kv => kv.1) :=
        lookupA_some_mem_key _ _ _ hl
      constructor
      · rw [markAsConsumed_messages_of_ne ms tid cid msg hl hcons]
        show ((upsertA tid _ ms.messages).map _).Nodup
        rw [fst_upsertA_mem _ _ _ hkey]
        exact h.1
      · rw [markAsConsumed_messages_of_ne ms tid cid msg hl hcons]
        intro kv hkv
        rcases mem_upsertA _ _ _ _ hkv with rfl | hm
        · simp
        · exact h.2 kv hm

lemma wf_cleanExpired (ms : MemoryState) (ttl now : Int) (h : wfState ms) :
    wfState (cleanExpired ms ttl now).1 := by
  constructor
  · rw [cleanExpired_messages]
    exact ((List.filter_sublist _).map _).nodup h.1
  · rw [cleanExpired_messages]
    intro kv hkv
    exact h.2 kv (List.mem_of_mem_filter hkv)

lemma wf_foldl_markD (cid : List Char) (now : Int) :
    ∀ (l : List StoredMessage) (ms : MemoryState), wfState ms →
    wfState (l.foldl (fun st mm => (markAsDelivered st mm.id cid now).1) ms) := by
  intro l
  induction l with
  | nil => exact fun ms h => h
  | cons mm rest ih =>
    intro ms h
    exact ih _ (wf_markAsDelivered ms mm.id cid now h)

lemma wf_step (ms : MemoryState) (op : Op) (h : wfState ms) :
    wfState (step ms op) := by
  cases op with
  | store msg now => exact wf_storeMessage ms msg now h
  | getNew c => exact h
  | markDelivered tid cid now => exact wf_markAsDelivered ms tid cid now h
  | markConsumed tid cid => exact wf_markAsConsumed ms tid cid h
  | clean ttl now => exact wf_cleanExpired ms ttl now h
  | consume cid now => exact wf_foldl_markD cid now (getNewMessages ms cid) ms h

lemma wf_foldl_step : ∀ (ops : List Op) (ms : MemoryState), wfState ms →
    wfState (ops.foldl step ms) := by
  intro ops
  induction ops with
  | nil => exact fun ms h => h
  | cons op rest ih => exact fun ms h => ih _ (wf_step ms op h)

lemma wf_run (ops : List Op) : wfState (run ops) :=
  wf_foldl_step ops emptyMemoryState wf_empty

lemma step_rank_mono (ms : MemoryState) (op : Op) (hwf : wfState ms)
    (id : List Char) (m m' : StoredMessage)
    (h1 : lookupA id ms.messages = some m)
    (h2 : lookupA id (step ms op).messages = some m') :
    rank m.state ≤ rank m'.state := by
  cases op with
  | store msg now =>
    have hk := storeMessage_keeps ms msg now id m h1
    rw [show step ms (.store msg now) = (storeMessage ms msg now).1 from rfl,
      hk] at h2
    obtain rfl : m = m' := by injection h2
    exact le_refl _
  | getNew c =>
    rw [show step ms (.getNew c) = ms from rfl, h1] at h2
    obtain rfl : m = m' := by injection h2
    exact le_refl _
  | markDelivered tid cid now =>
    obtain ⟨m2, hm2, hr, _⟩ := markAsDelivered_keeps ms tid cid now id m h1
    rw [show step ms (.markDelivered tid cid now) =
      (markAsDelivered ms tid cid now).1 from rfl, hm2] at h2
    obtain rfl : m2 = m' := by injection h2
    exact hr
  | markConsumed tid cid =>
    have hexp : m.state ≠ MessageState.stateExpired :=
      hwf.2 (id, m) (mem_of_lookupA _ _ _ h1)
    obtain ⟨m2, hm2, hr, _⟩ := markAsConsumed_keeps ms tid cid id m h1 hexp
    rw [show step ms (.markConsumed tid cid) =
      (markAsConsumed ms tid cid).1 from rfl, hm2] at h2
    obtain rfl : m2 = m' := by injection h2
    exact hr
  | clean ttl now =>
    have := cleanExpired_keeps ms ttl now id m' hwf.1 h2
    rw [this] at h1
    obtain rfl : m' = m := by injection h1
    exact le_refl _
  | consume cid now =>
    obtain ⟨m2, hm2, hr, _⟩ := consume_keeps ms cid now id m h1
    rw [show step ms (.consume cid now) = (consumeMessages ms cid now).2 from rfl,
      hm2] at h2
    obtain rfl : m2 = m' := by injection h2
    exact hr

/-- C8: along any operation sequence from the empty store, a message
present before and after one more operation never moves backward in the
lifecycle order `New < Delivered < Consumed`. -/
theorem storage_state_never_backward (ops : List Op) (op : Op) (id : List Char)
    (m m' : StoredMessage)
    (h1 : lookupA id (run ops).messages = some m)
    (h2 : lookupA id (step (run ops) op).messages = some m') :
    rank m.state ≤ rank m'.state :=
  step_rank_mono (run ops) op (wf_run ops) id m m' h1 h2

end DnsStorage

namespace DnsStorage

/-- Concrete one-message publish used by the storage witnesses. -/
def msgW1 : StoredMessage :=
  { id := ['m', '1'], chunks := [], totalChunks := 0, manifest := [],
    createdAt := 0, state := .stateNew, consumers := [] }

/-- Store after publishing `msgW1` into the empty store. -/
def c2_s1 : MemoryState := (storeMessage emptyMemoryState msgW1 0).1

/-- Messages returned to the first client. -/
def c2_r1 : List StoredMessage := (consumeMessages c2_s1 ['a'] 1).1

/-- Store after the first client's consume. -/
def c2_s2 : MemoryState := (consumeMessages c2_s1 ['a'] 1).2

/-- Messages returned to the second, distinct client. -/
def c2_r2 : List StoredMessage := (consumeMessages c2_s2 ['b'] 2).1

/-- Store after the second client's consume. -/
def c2_s3 : MemoryState := (consumeMessages c2_s2 ['b'] 2).2

/-- C2 evaluated at its failing input: after client `a` consumes the only
`New` message, client `b`'s `ConsumeMessages` returns the empty list —
`GetNewMessages` requires `State == StateNew`, so the message delivered to
`a` is invisible to `b`, only `a` appears in the consumer list, and the
state moved `New → Delivered` exactly once. -/
theorem consume_no_fanout_second_client :
    c2_r1.map (fun m => m.id) = [['m', '1']] ∧
    c2_r2 = [] ∧
    (lookupA ['m', '1'] c2_s2.messages).map (fun m => m.state) =
      some MessageState.stateDelivered ∧
    (lookupA ['m', '1'] c2_s3.messages).map (fun m => m.state) =
      some MessageState.stateDelivered ∧
    (lookupA ['m', '1'] c2_s3.messages).map
      (fun m => m.consumers.map (fun r => r.clientIP)) = some [['a']] := by decide

lemma markAsConsumed_of_ne_full (ms : MemoryState) (tid cid : List Char)
    (msg : StoredMessage) (hl : lookupA tid ms.messages = some msg)
    (hne : msg.state ≠ MessageState.stateConsumed) :
    markAsConsumed ms tid cid =
      ({ ms with
         messages := upsertA tid { msg with state := MessageState.stateConsumed }
           ms.messages,
         stats := { ms.stats with consumed := ms.stats.consumed + 1 } }, .ok ()) := by
  unfold markAsConsumed
  rw [hl]
  simp [hne]

/-- C7: acknowledging (`MarkAsConsumed`) the same stored message twice
leaves it `Consumed` after both calls; the second call is a complete
no-op (in particular it changes no stats counter), and only the first
call increments the `Consumed` counter. -/
theorem acknowledge_twice_consumed (ms : MemoryState) (msgID clientID : List Char)
    (m : StoredMessage) (hm : lookupA msgID ms.messages = some m) :
    (lookupA msgID ((acknowledgeMessage ms msgID clientID).1).messages).map
      (fun x => x.state) = some MessageState.stateConsumed ∧
    (acknowledgeMessage ((acknowledgeMessage ms msgID clientID).1) msgID clientID).1 =
      (acknowledgeMessage ms msgID clientID).1 ∧
    (m.state ≠ MessageState.stateConsumed →
      ((acknowledgeMessage ms msgID clientID).1).stats.consumed =
        ms.stats.consumed + 1) ∧
    (m.state = MessageState.stateConsumed →
      (acknowledgeMessage ms msgID clientID).1 = ms) := by
  unfold acknowledgeMessage
  by_cases hcons : m.state = MessageState.stateConsumed
  · have e1 : (markAsConsumed ms msgID clientID).1 = ms := by
      rw [markAsConsumed_already ms msgID clientID m hm hcons]
    refine ⟨?_, ?_, fun hne => absurd hcons hne, fun _ => e1⟩
    · rw [e1, hm, Option.map_some', hcons]
    · rw [e1]
      exact e1
  · have e1f : (markAsConsumed ms msgID clientID).1 =
        { ms with
          messages := upsertA msgID { m with state := MessageState.stateConsumed }
            ms.messages,
          stats := { ms.stats with consumed := ms.stats.consumed + 1 } } := by
      rw [markAsConsumed_of_ne_full ms msgID clientID m hm hcons]
    have hlook2 : lookupA msgID ((markAsConsumed ms msgID clientID).1).messages =
        some { m with state := MessageState.stateConsumed } := by
      rw [e1f]
      show lookupA msgID (upsertA msgID _ ms.messages) = _
      rw [lookupA_upsertA, if_pos rfl]
    have e2 : (markAsConsumed ((markAsConsumed ms msgID clientID).1) msgID clientID).1 =
        (markAsConsumed ms msgID clientID).1 := by
      rw [markAsConsumed_already _ msgID clientID _ hlook2 rfl]
    refine ⟨?_, e2, fun _ => ?_, fun hc => absurd hc hcons⟩
    · rw [hlook2, Option.map_some']
    · rw [e1f]

/-- Witness for the idempotent-acknowledge theorem at a concrete store:
the single published message of `c2_s1`. -/
theorem acknowledge_twice_consumed_witness :
    (acknowledgeMessage ((acknowledgeMessage c2_s1 ['m', '1'] ['a']).1)
      ['m', '1'] ['a']).1 = (acknowledgeMessage c2_s1 ['m', '1'] ['a']).1 := by
  obtain ⟨v, hv⟩ : ∃ v, lookupA ['m', '1'] c2_s1.messages = some v := ⟨_, rfl⟩
  exact (acknowledge_twice_consumed c2_s1 ['m', '1'] ['a'] v hv).2.1

/-- C3 (amended): in the file-backed store only `StoreMessage` is followed
by a `Save`; the promoted `MarkAsDelivered`, `MarkAsConsumed` and
`CleanExpired` mutate the in-memory state without touching the on-disk
snapshot. -/
theorem file_storage_only_store_saves (fs : FileState) (msg : StoredMessage)
    (msgID clientID : List Char) (now t1 ttl t2 : Int) :
    ((fileStoreMessage fs msg now).2 = .ok () →
      (fileStoreMessage fs msg now).1.disk =
        some (snapshotOf (fileStoreMessage fs msg now).1.mem)) ∧
    (fileMarkAsDelivered fs msgID clientID t1).1.disk = fs.disk ∧
    (fileMarkAsConsumed fs msgID clientID).1.disk = fs.disk ∧
    (fileCleanExpired fs ttl t2).1.disk = fs.disk := by
  refine ⟨?_, rfl, rfl, rfl⟩
  intro hok
  unfold fileStoreMessage at hok ⊢
  cases hs : storeMessage fs.mem msg now with
  | mk mem1 r =>
    cases r with
    | error e =>
      rw [hs] at hok
      simp at hok
    | ok u => rfl

/-- Witness for the file-storage save theorem at a concrete input: storing
into an empty file store writes a snapshot, and a promoted mark leaves the
disk untouched. -/
theorem file_storage_only_store_saves_witness :
    (fileStoreMessage { mem := emptyMemoryState, disk := none } msgW1 0).1.disk =
      some (snapshotOf
        (fileStoreMessage { mem := emptyMemoryState, disk := none } msgW1 0).1.mem) :=
  (file_storage_only_store_saves { mem := emptyMemoryState, disk := none } msgW1
    ['m', '1'] ['a'] 0 1 10 2).1 (by decide)

/-- File store after publishing `msgW1` into an empty file store. -/
def c3_fs1 : FileState :=
  (fileStoreMessage { mem := emptyMemoryState, disk := none } msgW1 0).1

/-- File store after a promoted `MarkAsDelivered` on `c3_fs1`. -/
def c3_fs2 : FileState := (fileMarkAsDelivered c3_fs1 ['m', '1'] ['a'] 1).1

/-- Counterexample to C3 as stated: after a successful `MarkAsDelivered`
on the file-backed store the in-memory state changed but the on-disk
snapshot did not, so the disk does not reflect the new state. -/
theorem file_mark_delivered_disk_stale :
    (fileMarkAsDelivered c3_fs1 ['m', '1'] ['a'] 1).2 = .ok () ∧
    c3_fs2.mem ≠ c3_fs1.mem ∧
    c3_fs2.disk = c3_fs1.disk ∧
    c3_fs2.disk ≠ some (snapshotOf c3_fs2.mem) := by decide

/-- The message value `msgW1` carries after its first delivery to client
`a` (state `Delivered`, one consumer record). -/
def storedAfterW : StoredMessage :=
  { msgW1 with
    state := MessageState.stateDelivered
    consumers := [{ clientIP := ['a'], fetchedAt := 1, chunksFetched := [] }] }

/-- Witness for the no-backward-transition theorem at a concrete trace:
store `msgW1`, then mark it delivered. -/
theorem storage_state_never_backward_witness :
    rank msgW1.state ≤ rank storedAfterW.state :=
  storage_state_never_backward [Op.store msgW1 0]
    (Op.markDelivered ['m', '1'] ['a'] 1) ['m', '1'] msgW1 storedAfterW
    (by decide) (by decide)

end DnsStorage

namespace DnsEnc

open ChunkerM

/-- The double-quote character escaped by `escapeTXTValue`. -/
def quoteChar : Char := Char.ofNat 34

/-- The backslash character escaped by `escapeTXTValue`. -/
def backslashChar : Char := Char.ofNat 92

/-- Go `fmt.Sprintf("\\%03d", ch)`: a backslash followed by the decimal
code zero-padded to at least three digits. -/
def decEscape (n : Nat) : List Char := backslashChar :: padZero 3 (natDigits n)

/-- The switch body of `escapeTXTValue` for one rune: `"` and `\\` get
their two-character escapes, `\n`/`\r`/`\t` and every rune outside
printable ASCII get a decimal escape, anything else passes through. -/
def escChar (ch : Char) : List Char :=
  if ch = quoteChar then [backslashChar, quoteChar]
  else if ch = backslashChar then [backslashChar, backslashChar]
  else if ch.toNat = 10 ∨ ch.toNat = 13 ∨ ch.toNat = 9 then decEscape ch.toNat
  else if ch.toNat < 32 ∨ ch.toNat > 126 then decEscape ch.toNat
  else [ch]

/-- `escapeTXTValue`: the builder loop over the runes of the value. -/
def escapeTXTValue (value : List Char) : List Char :=
  value.foldl (fun acc ch => acc ++ escChar ch) []

/-- Go `strings.ReplaceAll` for a two-character pattern `p1 p2` replaced
by the single character `r`: left-to-right, non-overlapping. -/
def replace2 (p1 p2 r : Char) : List Char → List Char
  | [] => []
  | [a] => [a]
  | a :: b :: rest =>
    if a = p1 ∧ b = p2 then r :: replace2 p1 p2 r rest
    else a :: replace2 p1 p2 r (b :: rest)
termination_by l => l.length
decreasing_by all_goals (simp only [List.length_cons]; omega)

/-- `unescapeTXTValue`: `ReplaceAll(v, bq, q)` then `ReplaceAll(·, bb, b)`
— only the quote and backslash escapes are reversed. -/
def unescapeTXTValue (value : List Char) : List Char :=
  replace2 backslashChar backslashChar backslashChar
    (replace2 backslashChar quoteChar quoteChar value)

lemma escape_foldl_acc (s : List Char) (acc : List Char) :
    s.foldl (fun a ch => a ++ escChar ch) acc = acc ++ (s.map escChar).flatten := by
  induction s generalizing acc with
  | nil => simp
  | cons c rest ih => simp [ih, List.append_assoc]

lemma escape_eq_flatten (s : List Char) :
    escapeTXTValue s = (s.map escChar).flatten := by
  rw [escapeTXTValue, escape_foldl_acc, List.nil_append]

lemma replace2_nil (p1 p2 r : Char) : replace2 p1 p2 r [] = [] := by
  simp [replace2]

lemma replace2_single (p1 p2 r a : Char) : replace2 p1 p2 r [a] = [a] := by
  simp [replace2]

lemma replace2_cons_ne (p1 p2 r a : Char) (l : List Char) (h : a ≠ p1) :
    replace2 p1 p2 r (a :: l) = a :: replace2 p1 p2 r l := by
  cases l with
  | nil => rw [replace2_single, replace2_nil]
  | cons b rest => simp [replace2, h]

lemma replace2_match (p1 p2 r : Char) (l : List Char) :
    replace2 p1 p2 r (p1 :: p2 :: l) = r :: replace2 p1 p2 r l := by
  simp [replace2]

lemma replace2_pair_ne (p1 p2 r b : Char) (l : List Char) (h : b ≠ p2) :
    replace2 p1 p2 r (p1 :: b :: l) = p1 :: replace2 p1 p2 r (b :: l) := by
  simp [replace2, h]

lemma replace2_of_not_mem (p1 p2 r : Char) (l : List Char) (h : p1 ∉ l) :
    replace2 p1 p2 r l = l := by
  induction l with
  | nil => exact replace2_nil ..
  | cons a rest ih =>
    have ha : a ≠ p1 := fun hc => h (hc ▸ List.mem_cons_self ..)
    rw [replace2_cons_ne _ _ _ _ _ ha,
      ih (fun hm => h (List.mem_cons_of_mem _ hm))]

lemma replace2_mem_aux (p1 p2 r : Char) :
    ∀ (n : Nat) (l : List Char), l.length ≤ n →
    ∀ c, c ∈ replace2 p1 p2 r l → c ∈ l ∨ c = r := by
  intro n
  induction n with
  | zero =>
    intro l hl c hc
    have hnil : l = [] := List.length_eq_zero.mp (by omega)
    subst hnil
    rw [replace2_nil] at hc
    cases hc
  | succ k ih =>
    intro l hl c hc
    match l with
    | [] =>
      rw [replace2_nil] at hc
      cases hc
    | [a] =>
      rw [replace2_single] at hc
      exact Or.inl hc
    | a :: b :: rest =>
      by_cases hm : a = p1 ∧ b = p2
      · rw [hm.1, hm.2, replace2_match] at hc
        rcases List.mem_cons.mp hc with rfl | hc2
        · exact Or.inr rfl
        · rcases ih rest (by simp at hl ⊢; omega) c hc2 with h | h
          · exact Or.inl (by simp [h])
          · exact Or.inr h
      · have hstep : replace2 p1 p2 r (a :: b :: rest) =
            a :: replace2 p1 p2 r (b :: rest) := by
          by_cases ha : a = p1
          · subst ha
            have hb : b ≠ p2 := fun hc2 => hm ⟨rfl, hc2⟩
            exact replace2_pair_ne _ _ _ _ _ hb
          · exact replace2_cons_ne _ _ _ _ _ ha
        rw [hstep] at hc
        rcases List.mem_cons.mp hc with rfl | hc2
        · exact Or.inl (List.mem_cons_self ..)
        · rcases ih (b :: rest) (by simp at hl ⊢; omega) c hc2 with h | h
          · exact Or.inl (List.mem_cons_of_mem _ h)
          · exact Or.inr h

lemma replace2_mem (p1 p2 r : Char) (l : List Char) (c : Char)
    (h : c ∈ replace2 p1 p2 r l) : c ∈ l ∨ c = r :=
  replace2_mem_aux p1 p2 r l.length l (le_refl _) c h

lemma natDigitsAux_shape : ∀ (fuel n : Nat) (c : Char),
    c ∈ natDigitsAux fuel n → ∃ m, m < 10 ∧ c = digitChar m := by
  intro fuel
  induction fuel with
  | zero => intro n c hc; cases hc
  | succ k ih =>
    intro n c hc
    rw [natDigitsAux] at hc
    by_cases h10 : n < 10
    · rw [if_pos h10] at hc
      rcases List.mem_cons.mp hc with rfl | hc2
      · exact ⟨n, h10, rfl⟩
      · cases hc2
    · rw [if_neg h10, List.mem_append] at hc
      rcases hc with hc | hc
      · exact ih (n / 10) c hc
      · rcases List.mem_cons.mp hc with rfl | hc2
        · exact ⟨n % 10, Nat.mod_lt _ (by omega), rfl⟩
        · cases hc2

lemma digit_printable (m : Nat) (hm : m < 10) :
    32 ≤ (digitChar m).toNat ∧ (digitChar m).toNat ≤ 126 ∧
    digitChar m ≠ quoteChar ∧ digitChar m ≠ backslashChar := by
  interval_cases m <;> exact ⟨by decide, by decide, by decide, by decide⟩

lemma natDigitsAux_len : ∀ (fuel n k : Nat), n < 10 ^ k → 0 < k →
    (natDigitsAux fuel n).length ≤ k := by
  intro fuel
  induction fuel with
  | zero => intro n k _ _; simp [natDigitsAux]
  | succ f ih =>
    intro n k hn hk
    rw [natDigitsAux]
    by_cases h10 : n < 10
    · rw [if_pos h10]
      simpa using hk
    · rw [if_neg h10]
      have hk2 : 2 ≤ k := by
        by_contra hc
        interval_cases k
        · simp at hn
          omega
      have hdiv : n / 10 < 10 ^ (k - 1) := by
        have h1 : n < 10 * 10 ^ (k - 1) := by
          have : 10 ^ k = 10 * 10 ^ (k - 1) := by
            rw [← pow_succ']
            congr 1
            omega
          omega
        omega
      have := ih (n / 10) (k - 1) hdiv (by omega)
      simp only [List.length_append, List.length_cons, List.length_nil]
      omega

end DnsEnc

namespace DnsEnc

open ChunkerM

lemma escChar_quote : escChar quoteChar = [backslashChar, quoteChar] := by decide

lemma escChar_backslash :
    escChar backslashChar = [backslashChar, backslashChar] := by decide

lemma escChar_printable_other (c : Char) (hp : 32 ≤ c.toNat ∧ c.toNat ≤ 126)
    (hq : c ≠ quoteChar) (hb : c ≠ backslashChar) : escChar c = [c] := by
  unfold escChar
  rw [if_neg hq, if_neg hb, if_neg (by omega), if_neg (by omega)]

/-- Image of one character after the first `ReplaceAll` pass over an
escaped printable string: quotes are restored, backslashes still doubled. -/
def g1Char (c : Char) : List Char :=
  if c = quoteChar then [quoteChar]
  else if c = backslashChar then [backslashChar, backslashChar]
  else [c]

lemma phase1_aux : ∀ (n : Nat) (s : List Char), s.length ≤ n →
    (∀ c ∈ s, 32 ≤ c.toNat ∧ c.toNat ≤ 126) →
    replace2 backslashChar quoteChar quoteChar (escapeTXTValue s) =
      (s.map g1Char).flatten ∧
    replace2 backslashChar quoteChar quoteChar (backslashChar :: escapeTXTValue s) =
      backslashChar :: (s.map g1Char).flatten := by
  intro n
  induction n with
  | zero =>
    intro s hl _
    have hnil : s = [] := List.length_eq_zero.mp (by omega)
    subst hnil
    constructor
    · rw [show escapeTXTValue [] = [] from rfl, replace2_nil]
      rfl
    · rw [show escapeTXTValue [] = [] from rfl, replace2_single]
      rfl
  | succ k ih =>
    intro s hl hp
    cases s with
    | nil =>
      constructor
      · rw [show escapeTXTValue [] = [] from rfl, replace2_nil]
        rfl
      · rw [show escapeTXTValue [] = [] from rfl, replace2_single]
        rfl
    | cons c s2 =>
      have hp2 : ∀ x ∈ s2, 32 ≤ x.toNat ∧ x.toNat ≤ 126 :=
        fun x hx => hp x (List.mem_cons_of_mem _ hx)
      have hpc := hp c (List.mem_cons_self ..)
      have hl2 : s2.length ≤ k := by
        simp only [List.length_cons] at hl
        omega
      have hE : escapeTXTValue (c :: s2) = escChar c ++ escapeTXTValue s2 := by
        rw [escape_eq_flatten, escape_eq_flatten, List.map_cons, List.flatten_cons]
      obtain ⟨ihA, ihB⟩ := ih s2 hl2 hp2
      by_cases hq : c = quoteChar
      · subst hq
        rw [hE, escChar_quote]
        constructor
        · show replace2 _ _ _
            (backslashChar :: quoteChar :: escapeTXTValue s2) = _
          rw [replace2_match, ihA]
          simp [g1Char]
        · show replace2 _ _ _
            (backslashChar :: backslashChar :: quoteChar :: escapeTXTValue s2) = _
          rw [replace2_pair_ne _ _ _ _ _ (by decide : backslashChar ≠ quoteChar),
            replace2_match, ihA]
          simp [g1Char]
      · by_cases hb : c = backslashChar
        · subst hb
          rw [hE, escChar_backslash]
          constructor
          · show replace2 _ _ _
              (backslashChar :: backslashChar :: escapeTXTValue s2) = _
            rw [replace2_pair_ne _ _ _ _ _ (by decide : backslashChar ≠ quoteChar),
              ihB]
            simp [g1Char, hq]
          · show replace2 _ _ _ (backslashChar :: backslashChar :: backslashChar ::
              escapeTXTValue s2) = _
            rw [replace2_pair_ne _ _ _ _ _ (by decide : backslashChar ≠ quoteChar),
              replace2_pair_ne _ _ _ _ _ (by decide : backslashChar ≠ quoteChar),
              ihB]
            simp [g1Char, hq]
        · have hesc : escChar c = [c] := escChar_printable_other c hpc hq hb
          rw [hE, hesc]
          constructor
          · show replace2 _ _ _ (c :: escapeTXTValue s2) = _
            rw [replace2_cons_ne _ _ _ _ _ hb, ihA]
            simp [g1Char, hq, hb]
          · show replace2 _ _ _ (backslashChar :: c :: escapeTXTValue s2) = _
            rw [replace2_pair_ne _ _ _ _ _ hq, replace2_cons_ne _ _ _ _ _ hb, ihA]
            simp [g1Char, hq, hb]

lemma phase2_aux : ∀ (s : List Char),
    replace2 backslashChar backslashChar backslashChar ((s.map g1Char).flatten) = s := by
  intro s
  induction s with
  | nil => exact replace2_nil ..
  | cons c s2 ih =>
    have hflat : ((c :: s2).map g1Char).flatten =
        g1Char c ++ (s2.map g1Char).flatten := by
      rw [List.map_cons, List.flatten_cons]
    rw [hflat]
    by_cases hq : c = quoteChar
    · subst hq
      rw [show g1Char quoteChar = [quoteChar] from by decide]
      rw [List.singleton_append]
      rw [replace2_cons_ne _ _ _ _ _ (by decide : quoteChar ≠ backslashChar), ih]
    · by_cases hb : c = backslashChar
      · subst hb
        rw [show g1Char backslashChar = [backslashChar, backslashChar] from by
          decide]
        rw [List.cons_append, List.singleton_append]
        rw [replace2_match, ih]
      · rw [show g1Char c = [c] from by simp [g1Char, hq, hb]]
        rw [List.singleton_append]
        rw [replace2_cons_ne _ _ _ _ _ hb, ih]

lemma decEscape_chars (n : Nat) (c : Char) (hc : c ∈ decEscape n) :
    32 ≤ c.toNat ∧ c.toNat ≤ 126 := by
  unfold decEscape padZero natDigits at hc
  rcases List.mem_cons.mp hc with rfl | hc2
  · exact ⟨by decide, by decide⟩
  · rw [List.mem_append] at hc2
    rcases hc2 with hc3 | hc3
    · have hz := List.eq_of_mem_replicate hc3
      subst hz
      exact ⟨by decide, by decide⟩
    · obtain ⟨m, hm, rfl⟩ := natDigitsAux_shape _ _ _ hc3
      have hd := digit_printable m hm
      exact ⟨hd.1, hd.2.1⟩

lemma escape_chars_printable (s : List Char) (c : Char)
    (hc : c ∈ escapeTXTValue s) : 32 ≤ c.toNat ∧ c.toNat ≤ 126 := by
  rw [escape_eq_flatten] at hc
  obtain ⟨l, hl, hcl⟩ := List.mem_flatten.mp hc
  obtain ⟨x, _, rfl⟩ := List.mem_map.mp hl
  unfold escChar at hcl
  by_cases h1 : x = quoteChar
  · rw [if_pos h1] at hcl
    rcases List.mem_cons.mp hcl with rfl | h2
    · exact ⟨by decide, by decide⟩
    · rcases List.mem_cons.mp h2 with rfl | h3
      · exact ⟨by decide, by decide⟩
      · cases h3
  · rw [if_neg h1] at hcl
    by_cases h2 : x = backslashChar
    · rw [if_pos h2] at hcl
      rcases List.mem_cons.mp hcl with rfl | h3
      · exact ⟨by decide, by decide⟩
      · rcases List.mem_cons.mp h3 with rfl | h4
        · exact ⟨by decide, by decide⟩
        · cases h4
    · rw [if_neg h2] at hcl
      by_cases h3 : x.toNat = 10 ∨ x.toNat = 13 ∨ x.toNat = 9
      · rw [if_pos h3] at hcl
        exact decEscape_chars _ _ hcl
      · rw [if_neg h3] at hcl
        by_cases h4 : x.toNat < 32 ∨ x.toNat > 126
        · rw [if_pos h4] at hcl
          exact decEscape_chars _ _ hcl
        · rw [if_neg h4] at hcl
          rcases List.mem_cons.mp hcl with rfl | h5
          · omega
          · cases h5

lemma unescape_chars (l : List Char) (c : Char) (hc : c ∈ unescapeTXTValue l) :
    c ∈ l ∨ c = quoteChar ∨ c = backslashChar := by
  unfold unescapeTXTValue at hc
  rcases replace2_mem _ _ _ _ _ hc with h | h
  · rcases replace2_mem _ _ _ _ _ h with h2 | h2
    · exact Or.inl h2
    · exact Or.inr (Or.inl h2)
  · exact Or.inr (Or.inr h)

/-- C9 (amended): `escapeTXTValue` escapes the quote and backslash with
their two-character forms and every character outside printable ASCII
with a backslash plus its decimal code zero-padded to at least three
digits — exactly three only when the code is at most 999;
`unescapeTXTValue` reverses only the quote and backslash forms and leaves
a `\DDD` escape unchanged; the escape/unescape round-trip is the identity
on strings of printable ASCII and fails on every string containing a
character outside printable ASCII. -/
theorem escape_unescape_spec :
    (escChar quoteChar = [backslashChar, quoteChar]) ∧
    (escChar backslashChar = [backslashChar, backslashChar]) ∧
    (∀ c : Char, c.toNat < 32 ∨ c.toNat > 126 →
      escapeTXTValue [c] = decEscape c.toNat ∧
      (c.toNat ≤ 999 → (escapeTXTValue [c]).length = 4)) ∧
    (∀ ds : List Char, (∀ d ∈ ds, ∃ m, m < 10 ∧ d = digitChar m) →
      unescapeTXTValue (backslashChar :: ds) = backslashChar :: ds) ∧
    (∀ s : List Char, (∀ c ∈ s, 32 ≤ c.toNat ∧ c.toNat ≤ 126) →
      unescapeTXTValue (escapeTXTValue s) = s) ∧
    (∀ (s : List Char) (c : Char), c ∈ s → (c.toNat < 32 ∨ c.toNat > 126) →
      unescapeTXTValue (escapeTXTValue s) ≠ s) := by
  refine ⟨escChar_quote, escChar_backslash, ?_, ?_, ?_, ?_⟩
  · intro c hnp
    have hq : c ≠ quoteChar := by
      intro h
      rw [h] at hnp
      exact absurd hnp (by decide)
    have hb : c ≠ backslashChar := by
      intro h
      rw [h] at hnp
      exact absurd hnp (by decide)
    have hesc : escapeTXTValue [c] = escChar c := by
      rw [escape_eq_flatten]
      simp
    have hdec : escapeTXTValue [c] = decEscape c.toNat := by
      rw [hesc]
      unfold escChar
      rw [if_neg hq, if_neg hb]
      by_cases h3 : c.toNat = 10 ∨ c.toNat = 13 ∨ c.toNat = 9
      · rw [if_pos h3]
      · rw [if_neg h3, if_pos hnp]
    refine ⟨hdec, fun h999 => ?_⟩
    have hL := natDigitsAux_len (c.toNat + 1) c.toNat 3 (by omega) (by omega)
    rw [hdec]
    unfold decEscape padZero natDigits
    simp only [List.length_cons, List.length_append, List.length_replicate]
    unfold natDigits at hL
    omega
  · intro ds hds
    have hnb : backslashChar ∉ ds := by
      intro hm
      obtain ⟨m, hm10, heq⟩ := hds _ hm
      exact absurd heq.symm (digit_printable m hm10).2.2.2
    have hnq : ∀ d ∈ ds, d ≠ quoteChar := by
      intro d hd
      obtain ⟨m, hm10, heq⟩ := hds _ hd
      rw [heq]
      exact (digit_printable m hm10).2.2.1
    unfold unescapeTXTValue
    have h1 : replace2 backslashChar quoteChar quoteChar (backslashChar :: ds) =
        backslashChar :: ds := by
      cases ds with
      | nil => exact replace2_single ..
      | cons d ds2 =>
        rw [replace2_pair_ne _ _ _ _ _ (hnq d (List.mem_cons_self ..)),
          replace2_of_not_mem _ _ _ _ (by
            intro hm
            exact hnb hm)]
    rw [h1]
    cases ds with
    | nil => exact replace2_single ..
    | cons d ds2 =>
      have hd1 : d ≠ backslashChar := by
        intro h
        exact hnb (h ▸ List.mem_cons_self ..)
      rw [replace2_pair_ne _ _ _ _ _ hd1,
        replace2_of_not_mem _ _ _ _ (by
          intro hm
          exact hnb hm)]
  · intro s hp
    unfold unescapeTXTValue
    rw [(phase1_aux s.length s (le_refl _) hp).1]
    exact phase2_aux s
  · intro s c hc hnp heq
    have hcout : c ∈ unescapeTXTValue (escapeTXTValue s) := heq.symm ▸ hc
    rcases unescape_chars _ _ hcout with h | h | h
    · have := escape_chars_printable s c h
      omega
    · rw [h] at hnp
      exact absurd hnp (by decide)
    · rw [h] at hnp
      exact absurd hnp (by decide)

/-- Witness for the escape/unescape theorem at concrete inputs: the
printable string `a"\\` round-trips, and a lone decimal escape passes
through unescaping unchanged. -/
theorem escape_unescape_spec_witness :
    unescapeTXTValue (escapeTXTValue [Char.ofNat 97, quoteChar, backslashChar]) =
      [Char.ofNat 97, quoteChar, backslashChar] ∧
    unescapeTXTValue [backslashChar, digitChar 0, digitChar 1, digitChar 0] =
      [backslashChar, digitChar 0, digitChar 1, digitChar 0] :=
  ⟨escape_unescape_spec.2.2.2.2.1 _ (by decide),
   escape_unescape_spec.2.2.2.1 [digitChar 0, digitChar 1, digitChar 0] (by decide)⟩

/-- Counterexample to C9 as stated: the character with code 1000 lies
outside printable ASCII but its escape is `\1000` — five characters, a
four-digit decimal, not a three-digit `\DDD` escape. -/
theorem escape_char_1000_not_three_digits :
    ((Char.ofNat 1000).toNat > 126) ∧
    escapeTXTValue [Char.ofNat 1000] =
      [backslashChar, digitChar 1, digitChar 0, digitChar 0, digitChar 0] ∧
    (escapeTXTValue [Char.ofNat 1000]).length ≠ 4 := by decide

end DnsEnc
